import Mathlib

/-
Shallow embedding of the SimConnect backend core (order lifecycle engine,
webhook validator/ingestion pipeline, SSE notification hub), translated from
`backend/app/services/order_service.py`, `backend/app/services/sms/validator.py`,
`backend/app/services/sms/webhook.py`, `backend/app/services/sms/adapter.py`
and `backend/app/api/sse.py`.

Conventions of the embedding:
- Python strings are `String` / `List Char`; Python `\d`, `\w`, `\s` are modelled
  over their ASCII parts (every input appearing in a concrete theorem is ASCII).
- Python `int` is `Int` (balances, prices); `datetime` columns are opaque `Nat`
  instants ordered by `<`.
- SQLAlchemy sessions are an explicit record `DB` of the relevant tables; a
  `.first()` query is `List.find?`, an ORM in-place row mutation is an update of
  the first row matching the query that fetched it; `commit` is the returned
  state, and failure paths that `return None` before mutating leave the state
  unchanged (matching `rollback` semantics of the source).
- `async` effects (provider network calls) are explicit inputs: the provider's
  reservation answer is passed to `create_order` as an oracle value, exactly the
  dictionary shape `order_service.py` reads out of `sms_provider.get_number`.
-/

/-! ### Character classes (ASCII fragments of Python `\d`, `\w`, `\s`, control chars) -/

/-- ASCII part of Python's `\s` (space, tab, newline, carriage return,
vertical tab, form feed). -/
def isPySpace (c : Char) : Bool :=
  c = ' ' || c = '\t' || c = '\n' || c = '\r' || c = '\x0b' || c = '\x0c'

/-- ASCII part of Python's `\w`: letters, digits, underscore. -/
def isWordChar (c : Char) : Bool :=
  c.isAlphanum || c = '_'

/-- The character class removed by `sanitize_message_text`:
`[\x00-\x1f\x7f-\x9f]`. -/
def isCtlChar (c : Char) : Bool :=
  c.toNat ≤ 0x1f || (0x7f ≤ c.toNat && c.toNat ≤ 0x9f)

/-- ASCII lowercasing, modelling `re.IGNORECASE` comparisons. -/
def toLowerAscii (c : Char) : Char :=
  if 'A' ≤ c ∧ c ≤ 'Z' then Char.ofNat (c.toNat + 32) else c

/-! ### Generic list helpers (ORM row update / removal) -/

/-- Mutate the first element matching `p` (the row fetched by a `.first()`
query) in place; identity when no row matches. -/
def updateFirst {α : Type} (p : α → Bool) (f : α → α) : List α → List α
  | [] => []
  | x :: xs => if p x then f x :: xs else x :: updateFirst p f xs

/-- Remove the first element matching `p` (Python `list.remove`); identity when
no element matches (the source swallows the `ValueError`). -/
def removeFirst {α : Type} (p : α → Bool) : List α → List α
  | [] => []
  | x :: xs => if p x then xs else x :: removeFirst p xs

namespace SMSValidator

/-! ### `SMSValidator.extract_verification_code` (validator.py 12-40)

The source runs `re.findall` for eight patterns in order and returns the first
capture of length 4..6 consisting of digits.  The patterns are backtrack-free
for the inputs of each construct (`\d+`, `\s+`, `\s*`, `:?` are all followed by
a construct their own character class cannot satisfy), so each is modelled by a
deterministic greedy matcher; `re.findall`'s scan (try a match at each position,
on success continue after the consumed text, otherwise advance one character)
is modelled by `scanFindAll` with a step budget of the text length (every match
consumes at least one character, so the budget is never exhausted). -/

/-- Decompose a text into its maximal digit runs together with the characters
adjacent to each run (`none` at the ends of the text).  Accumulator `acc` holds
the reversed digits of the run currently being read; `prev` is the character
just before that run. -/
def digitRunsGo (prev : Option Char) (acc : List Char) :
    List Char → List (Option Char × List Char × Option Char)
  | [] => if acc.isEmpty then [] else [(prev, acc.reverse, none)]
  | c :: cs =>
    if c.isDigit then digitRunsGo prev (c :: acc) cs
    else if acc.isEmpty then digitRunsGo (some c) [] cs
    else (prev, acc.reverse, some c) :: digitRunsGo (some c) [] cs

def digitRuns (cs : List Char) : List (Option Char × List Char × Option Char) :=
  digitRunsGo none [] cs

def wordOpt : Option Char → Bool
  | none => false
  | some c => isWordChar c

/-- All captures of `re.findall(r'\b(\d{4,6})\b', text)`: the maximal digit
runs of length 4..6 with a non-word character (or a text end) on both sides.
A longer run never yields a capture here because `\b` cannot fall between two
digits, and a run length 4..6 touching a letter fails `\b` at every split. -/
def bareRunMatches (cs : List Char) : List (List Char) :=
  (digitRuns cs).filterMap fun t =>
    if 4 ≤ t.2.1.length ∧ t.2.1.length ≤ 6 ∧ wordOpt t.1 = false ∧ wordOpt t.2.2 = false
    then some t.2.1 else none

/-- All captures of `re.findall(r'(\d{4,6})\D', text)`: for a maximal digit run
followed by a (necessarily non-digit) character, the run itself when its length
is 4..6, and its last six digits when it is longer (the scan slides into a long
run one position at a time until six digits remain before the `\D`). -/
def trailingRunMatches (cs : List Char) : List (List Char) :=
  (digitRuns cs).filterMap fun t =>
    if 4 ≤ t.2.1.length ∧ t.2.2 ≠ none
    then some (t.2.1.drop (t.2.1.length - 6)) else none

/-- Case-insensitive literal-prefix match: drop the (lowercase) `label` from
the front of `s`, comparing ASCII-lowercased characters. -/
def dropPrefixCI : List Char → List Char → Option (List Char)
  | [], s => some s
  | _ :: _, [] => none
  | l :: ls, c :: cs => if toLowerAscii c = l then dropPrefixCI ls cs else none

/-- The `:?\s*(\d+)` tail of the label patterns: optionally drop a colon, drop
whitespace, and capture the (nonempty) digit run. -/
def matchColonSpaceDigits (s1 : List Char) : Option (List Char × List Char) :=
  if ((if s1.head? = some ':' then s1.tail else s1).dropWhile isPySpace
        |>.takeWhile Char.isDigit).isEmpty
  then none
  else some ((if s1.head? = some ':' then s1.tail else s1).dropWhile isPySpace
               |>.takeWhile Char.isDigit,
             (if s1.head? = some ':' then s1.tail else s1).dropWhile isPySpace
               |>.dropWhile Char.isDigit)

/-- Match `label:?\s*(\d+)` at the head of `s` (patterns
`код:?`, `code:?`, `verification:?`, `confirm:?` of the source), returning the
captured digit run and the rest of the text after the match. -/
def matchLabelAt (label : List Char) (s : List Char) : Option (List Char × List Char) :=
  match dropPrefixCI label s with
  | none => none
  | some s1 => matchColonSpaceDigits s1

/-- Match `your\s+code:?\s*(\d+)` at the head of `s`. -/
def matchYourCodeAt (s : List Char) : Option (List Char × List Char) :=
  match dropPrefixCI ['y', 'o', 'u', 'r'] s with
  | none => none
  | some s1 =>
    if (s1.takeWhile isPySpace).isEmpty then none
    else matchLabelAt ['c', 'o', 'd', 'e'] (s1.dropWhile isPySpace)

/-- Match `(\d+)\s+is\s+your` at the head of `s`: the greedy digit capture,
one-or-more whitespace, `is`, one-or-more whitespace, `your`. -/
def matchDigitsIsYourAt (s : List Char) : Option (List Char × List Char) :=
  if (s.takeWhile Char.isDigit).isEmpty then none else
  if ((s.dropWhile Char.isDigit).takeWhile isPySpace).isEmpty then none else
  match dropPrefixCI ['i', 's'] ((s.dropWhile Char.isDigit).dropWhile isPySpace) with
  | none => none
  | some s2 =>
    if (s2.takeWhile isPySpace).isEmpty then none else
    match dropPrefixCI ['y', 'o', 'u', 'r'] (s2.dropWhile isPySpace) with
    | none => none
    | some s3 => some (s.takeWhile Char.isDigit, s3)

/-- `re.findall` scan for a head matcher `m`: attempt a match at each position,
continue after the consumed text on success, otherwise advance one character.
`fuel` bounds the number of steps and is initialised to the text length, which
suffices because every match consumes at least one character. -/
def scanFindAll (m : List Char → Option (List Char × List Char)) :
    Nat → List Char → List (List Char)
  | _, [] => []
  | 0, _ :: _ => []
  | fuel + 1, c :: cs =>
    match m (c :: cs) with
    | some (cap, rest) => cap :: scanFindAll m fuel rest
    | none => scanFindAll m fuel cs

def findAll (m : List Char → Option (List Char × List Char)) (cs : List Char) :
    List (List Char) :=
  scanFindAll m cs.length cs

/-- The filter applied to every candidate:
`4 <= len(match) <= 6 and match.isdigit()`. -/
def codeOk (m : List Char) : Bool :=
  decide (4 ≤ m.length) && decide (m.length ≤ 6) && m.all Char.isDigit

/-- The candidate lists of the eight patterns, in the order of the source's
`patterns` table (validator.py 19-28): the bare `\b(\d{4,6})\b` run FIRST, then
the label patterns, then `(\d+)\s+is\s+your` and `(\d{4,6})\D`. -/
def patternCandidates (cs : List Char) : List (List Char) :=
  bareRunMatches cs
    ++ findAll (matchLabelAt ['к', 'о', 'д']) cs
    ++ findAll (matchLabelAt ['c', 'o', 'd', 'e']) cs
    ++ findAll (matchLabelAt ['v', 'e', 'r', 'i', 'f', 'i', 'c', 'a', 't', 'i', 'o', 'n']) cs
    ++ findAll (matchLabelAt ['c', 'o', 'n', 'f', 'i', 'r', 'm']) cs
    ++ findAll matchYourCodeAt cs
    ++ findAll matchDigitsIsYourAt cs
    ++ trailingRunMatches cs

/-- `SMSValidator.extract_verification_code`: the nested
`for pattern ... for match ... if ok: return match` loop returns the first
candidate passing `codeOk` in the pattern-major, match-minor order, i.e. the
first acceptable element of the concatenated candidate lists. -/
def extract_verification_code (s : String) : Option String :=
  if s = "" then none
  else ((patternCandidates s.data).find? codeOk).map List.asString

/-- `SMSAdapter.extract_code_from_message` (adapter.py 64-83): only four
patterns, and `re.search` inspects only the FIRST match of each pattern (a
failed length filter advances to the next pattern, not the next match). -/
def extract_code_from_message (s : String) : Option String :=
  [bareRunMatches s.data,
   findAll (matchLabelAt ['к', 'о', 'д']) s.data,
   findAll (matchLabelAt ['c', 'o', 'd', 'e']) s.data,
   findAll (matchLabelAt ['v', 'e', 'r', 'i', 'f', 'i', 'c', 'a', 't', 'i', 'o', 'n']) s.data
  ].findSome? fun l =>
    match l.head? with
    | some m => if codeOk m then some m.asString else none
    | none => none

/-- Whether a text contains four consecutive digit characters anywhere. -/
def has4ConsecutiveDigits : List Char → Bool
  | c1 :: c2 :: c3 :: c4 :: rest =>
    (c1.isDigit && c2.isDigit && c3.isDigit && c4.isDigit)
      || has4ConsecutiveDigits (c2 :: c3 :: c4 :: rest)
  | _ => false

/-- Modelled from the spec: the extraction policy as the specification words
it, for refinement comparison with `extract_verification_code` — the explicit
label patterns (code/код/verification/confirm followed by a 4-6 digit run)
checked BEFORE the bare 4-6 digit run, first match wins. -/
def extract_code_label_first_spec (s : String) : Option String :=
  ((findAll (matchLabelAt ['c', 'o', 'd', 'e']) s.data
      ++ findAll (matchLabelAt ['к', 'о', 'д']) s.data
      ++ findAll (matchLabelAt ['v', 'e', 'r', 'i', 'f', 'i', 'c', 'a', 't', 'i', 'o', 'n']) s.data
      ++ findAll (matchLabelAt ['c', 'o', 'n', 'f', 'i', 'r', 'm']) s.data
      ++ bareRunMatches s.data).find? codeOk).map List.asString

/-! ### `SMSValidator.validate_phone_number` (validator.py 42-58)

The pattern line is truncated in the provided source copy
(`pattern = r'^\+\d{10,15}` with no closing delimiter); the anchor `$` is
reconstructed from the specification ("`+` followed by 10-15 digits after
stripping all non-digit, non-`+` characters") and from the source's own
adjacent comment, giving the full match `^\+\d{10,15}$`. -/

/-- `re.sub(r'[^\d+]', '', phone_number)`: keep only digits and `+`. -/
def stripPhoneChars (cs : List Char) : List Char :=
  cs.filter fun c => c.isDigit || c = '+'

/-- Full match of `^\+\d{10,15}$` over an already-stripped character list. -/
def phoneRegexMatch : List Char → Bool
  | [] => false
  | c :: ds =>
    (c == '+') && ds.all Char.isDigit && decide (10 ≤ ds.length) && decide (ds.length ≤ 15)

def validate_phone_number (s : String) : Bool :=
  if s = "" then false else phoneRegexMatch (stripPhoneChars s.data)

/-- The specification's acceptance condition, stated independently: after
stripping, the string is `+` followed by 10 to 15 digits. -/
def phoneSpecAccepts (s : String) : Prop :=
  ∃ ds : List Char, stripPhoneChars s.data = '+' :: ds ∧
    (∀ c ∈ ds, c.isDigit = true) ∧ 10 ≤ ds.length ∧ ds.length ≤ 15

/-! ### `SMSValidator.sanitize_message_text` (validator.py 60-72) -/

/-- `re.sub(r'\s+', ' ', ·)` as a single pass: `inRun` records whether the
previous character belonged to a whitespace run already emitted as one space. -/
def collapseGo (inRun : Bool) : List Char → List Char
  | [] => []
  | c :: cs =>
    if isPySpace c then
      if inRun then collapseGo true cs else ' ' :: collapseGo true cs
    else c :: collapseGo false cs

/-- Python `str.strip()` (whitespace at both ends removed). -/
def pyStripList (cs : List Char) : List Char :=
  ((cs.dropWhile isPySpace).reverse.dropWhile isPySpace).reverse

/-- `sanitize_message_text`: empty in, empty out; otherwise strip, collapse
whitespace runs to single spaces, then delete `[\x00-\x1f\x7f-\x9f]`. -/
def sanitize_message_text (s : String) : String :=
  if s = "" then ""
  else ((collapseGo false (pyStripList s.data)).filter fun c => !(isCtlChar c)).asString

/-- Maximal whitespace-separated words of a text (used to state what
sanitization identifies: texts with equal word lists differ only in the kind or
length of their whitespace runs). -/
def tokensGo (cur : List Char) : List Char → List (List Char)
  | [] => if cur.isEmpty then [] else [cur.reverse]
  | c :: cs =>
    if isPySpace c then
      if cur.isEmpty then tokensGo [] cs else cur.reverse :: tokensGo [] cs
    else tokensGo (c :: cur) cs

def wsTokens (s : String) : List (List Char) :=
  tokensGo [] s.data

def joinTokens : List (List Char) → List Char
  | [] => []
  | [t] => t
  | t :: t2 :: ts => t ++ ' ' :: joinTokens (t2 :: ts)

/-- A list not ending in a whitespace character. -/
def noTrailWS : List Char → Bool
  | [] => true
  | [c] => !(isPySpace c)
  | _ :: c :: cs => noTrailWS (c :: cs)

/-! ### `SMSValidator.validate_order_status_transition` (validator.py 133-152) -/

/-- The `valid_transitions` table: key lookup of the current status. -/
def valid_transitions (current : String) : Option (List String) :=
  if current = "pending" then some ["received", "expired", "cancelled"]
  else if current = "received" then some []
  else if current = "expired" then some []
  else if current = "cancelled" then some []
  else none

/-- Returns `false` when the current status is not a key of the table or the
new status is not in the key's list, `true` otherwise. -/
def validate_order_status_transition (current new : String) : Bool :=
  match valid_transitions current with
  | none => false
  | some l => l.contains new

end SMSValidator

/-! ### Data model (models.py), restricted to the columns the core logic reads -/

namespace Models

structure User where
  telegram_id : String
  balance : Int
deriving DecidableEq

structure Country where
  id : String
  code : String
  price_from : Int
  available : Bool
deriving DecidableEq

structure Service where
  id : String
  name : String
  price_from : Int
  available : Bool
deriving DecidableEq

structure Order where
  id : String
  phone_number : String
  country_id : String
  service_id : String
  user_telegram_id : String
  price : Int
  status : String
  expires_at : Nat
  external_order_id : Option String
deriving DecidableEq

structure Msg where
  id : String
  order_id : String
  text : String
  code : Option String
deriving DecidableEq

/-- The relational state the engine manipulates. Row order is insertion order
(the order `.first()` queries scan in). `id` columns are primary keys; where a
theorem needs their uniqueness it carries an explicit `Nodup` hypothesis. -/
structure DB where
  users : List User
  countries : List Country
  services : List Service
  orders : List Order
  messages : List Msg
deriving DecidableEq

end Models

namespace SMSValidator

/-- `SMSValidator.is_message_duplicate` (validator.py 154-169): `false` on an
empty message list or empty new text; otherwise compare the sanitized new text
against each stored message's sanitized text.  (Every modelled message has a
`text` attribute, so the source's `hasattr` guard is always true.) -/
def is_message_duplicate (existing : List Models.Msg) (newText : String) : Bool :=
  if existing.isEmpty || newText = "" then false
  else
    let clean := sanitize_message_text newText
    existing.any fun m => sanitize_message_text m.text == clean

end SMSValidator

namespace OrderService

/-! ### `OrderService` (order_service.py)

`create_order` takes the provider's reservation answer as an explicit oracle
argument: `None` models both a missing provider and an exception inside
`sms_provider.get_number` (the source maps each to `None`), and the dictionary
fields `success`, `phone_number`, `order_id` are the ones the source reads.
The generated UUID and the computed `expires_at` instant are likewise explicit
arguments. -/

structure OrderCreate where
  telegram_id : String
  country_id : String
  service_id : String
deriving DecidableEq

structure SMSNumberResult where
  success : Bool
  phone_number : Option String
  order_id : Option String
deriving DecidableEq

def findUser (db : Models.DB) (tid : String) : Option Models.User :=
  db.users.find? fun u => u.telegram_id == tid

def findCountry (db : Models.DB) (cid : String) : Option Models.Country :=
  db.countries.find? fun c => c.id == cid

def findService (db : Models.DB) (sid : String) : Option Models.Service :=
  db.services.find? fun s => s.id == sid

/-- `OrderService.create_order` (order_service.py 34-111). Failure paths return
`(none, db)`: the state is not mutated before the first possible failure and
the `except` handler rolls back.  On success the user's balance is debited and
the new `pending` order is added, in one commit. -/
def create_order (db : Models.DB) (od : OrderCreate)
    (smsResult : Option SMSNumberResult) (newOrderId : String) (expiresAt : Nat) :
    Option Models.Order × Models.DB :=
  match findUser db od.telegram_id with
  | none => (none, db)
  | some user =>
  match findCountry db od.country_id with
  | none => (none, db)
  | some country =>
  match findService db od.service_id with
  | none => (none, db)
  | some service =>
  if !country.available || !service.available then (none, db) else
  -- price = max(country.price_from, service.price_from), written inline
  if user.balance < max country.price_from service.price_from then (none, db) else
  match smsResult with
  | none => (none, db)
  | some sms =>
  if !sms.success then (none, db) else
  let order : Models.Order :=
    { id := newOrderId
      phone_number := sms.phone_number.getD "+79001234567"
      country_id := od.country_id
      service_id := od.service_id
      user_telegram_id := od.telegram_id
      price := max country.price_from service.price_from
      status := "pending"
      expires_at := expiresAt
      external_order_id := sms.order_id }
  let db1 : Models.DB :=
    { db with
      users := updateFirst (fun u => u.telegram_id == od.telegram_id)
        (fun u => { u with balance := u.balance - max country.price_from service.price_from })
        db.users
      orders := db.orders ++ [order] }
  (some order, db1)

/-- The `where` clause of the cancellation query: id, owner and `pending`. -/
def cancelQuery (orderId userTid : String) (o : Models.Order) : Bool :=
  o.id == orderId && o.user_telegram_id == userTid && o.status == "pending"

/-- `OrderService.cancel_order` (order_service.py 113-161): fetch the pending
order of that user, best-effort provider release (no local state), refund the
price to the user row if present, set the status to `cancelled`. -/
def cancel_order (db : Models.DB) (orderId userTid : String) : Bool × Models.DB :=
  match db.orders.find? (cancelQuery orderId userTid) with
  | none => (false, db)
  | some order =>
    let db1 : Models.DB :=
      { db with
        users := updateFirst (fun u => u.telegram_id == userTid)
          (fun u => { u with balance := u.balance + order.price }) db.users }
    let db2 : Models.DB :=
      { db1 with
        orders := updateFirst (cancelQuery orderId userTid)
          (fun o => { o with status := "cancelled" }) db1.orders }
    (true, db2)

/-- `OrderService._expire_order` (order_service.py 219-249): unconditionally
refund the order's price to its user's row (if present) and set the fetched
row's status to `expired`.  The status guard lives in the CALLERS
(`_monitor_order_expiration` and the cleanup sweep), not here. -/
def expireOrderRaw (db : Models.DB) (o : Models.Order) : Models.DB :=
  let db1 : Models.DB :=
    { db with
      users := updateFirst (fun u => u.telegram_id == o.user_telegram_id)
        (fun u => { u with balance := u.balance + o.price }) db.users }
  { db1 with
    orders := updateFirst (fun x => x.id == o.id)
      (fun x => { x with status := "expired" }) db1.orders }

/-- `OrderService._monitor_order_expiration` (order_service.py 191-217), after
its sleep: re-read the order in a fresh session and expire it only if it is
still `pending`. -/
def monitor_order_expiration (db : Models.DB) (orderId : String) : Models.DB :=
  match db.orders.find? (fun o => o.id == orderId) with
  | none => db
  | some o => if o.status == "pending" then expireOrderRaw db o else db

/-- `OrderCleanupService.cleanup_expired_orders` (order_service.py 277-303):
fetch every `pending` order past its deadline, then expire each. -/
def cleanup_expired_orders (db : Models.DB) (now : Nat) : Models.DB :=
  (db.orders.filter fun o => o.status == "pending" && decide (o.expires_at < now)).foldl
    expireOrderRaw db

end OrderService

namespace SMSWebhook

/-! ### `SMSWebhookHandler` (webhook.py) -/

/-- The validated payload shape handed to `_process_validated_webhook`
(schemas.SMSWebhookData; `message_text` is the sanitized text and `code` the
pre-extracted verification code). -/
structure SMSWebhookData where
  order_id : String
  phone_number : String
  message_text : String
  code : Option String
deriving DecidableEq

/-- `SMSWebhookHandler._find_order` (webhook.py 102-121): by primary id, then
by `external_order_id`, then by (phone number, status = pending). -/
def find_order (db : Models.DB) (orderId phoneNumber : String) : Option Models.Order :=
  match db.orders.find? (fun o => o.id == orderId) with
  | some o => some o
  | none =>
  match db.orders.find? (fun o => o.external_order_id == some orderId) with
  | some o => some o
  | none =>
    db.orders.find? fun o => o.phone_number == phoneNumber && o.status == "pending"

def messagesForOrder (db : Models.DB) (orderId : String) : List Models.Msg :=
  db.messages.filter fun m => m.order_id == orderId

/-- `SMSWebhookHandler._process_validated_webhook` (webhook.py 51-100):
no order → `false`; transition to `received` not permitted → `false`;
duplicate text → `true` WITHOUT storing anything; otherwise store the message,
set the order's status to `received` and return `true`. -/
def process_validated_webhook (db : Models.DB) (data : SMSWebhookData)
    (newMessageId : String) : Bool × Models.DB :=
  match find_order db data.order_id data.phone_number with
  | none => (false, db)
  | some order =>
  if !SMSValidator.validate_order_status_transition order.status "received" then (false, db) else
  if SMSValidator.is_message_duplicate (messagesForOrder db order.id) data.message_text
  then (true, db) else
  let msg : Models.Msg :=
    { id := newMessageId
      order_id := order.id
      text := data.message_text
      code := data.code }
  let db1 : Models.DB :=
    { db with
      orders := updateFirst (fun o => o.id == order.id)
        (fun o => { o with status := "received" }) db.orders
      messages := db.messages ++ [msg] }
  (true, db1)

end SMSWebhook

namespace SSE

/-! ### `SSEManager` (sse.py)

An `asyncio.Queue` is modelled as a buffer plus a `broken` flag: `put` on a
broken queue is the exceptional path of the source's `try`.  Queues are
compared by Python object identity; the model gives each subscription an
identity string `sid`. -/

structure Sub where
  sid : String
  broken : Bool
  buf : List String
deriving DecidableEq

structure SSEManager where
  connections : List (String × List Sub)
deriving DecidableEq

def lookup (m : SSEManager) (uid : String) : Option (List Sub) :=
  (m.connections.find? fun p => p.1 == uid).map Prod.snd

/-- `self.connections` is a Python dict, so its keys are distinct. -/
def keysNodup (m : SSEManager) : Prop :=
  (m.connections.map Prod.fst).Nodup

/-- `SSEManager._format_sse_message` (sse.py 74-77), with the serialized JSON
payload passed in opaque. -/
def format_sse_message (etype payload : String) : String :=
  "event: " ++ etype ++ "\ndata: " ++ payload ++ "\n\n"

def putMsg (msg : String) (s : Sub) : Sub :=
  { s with buf := s.buf ++ [msg] }

/-- `SSEManager.disconnect` (sse.py 29-38): remove the queue from the user's
list (a missing queue's `ValueError` is swallowed); delete the user's key when
the list becomes empty. -/
def disconnect (m : SSEManager) (uid : String) (sid : String) : SSEManager :=
  match lookup m uid with
  | none => m
  | some l =>
    if l.any (fun s => s.sid == sid) then
      let l1 := removeFirst (fun s => s.sid == sid) l
      if l1.isEmpty then
        { connections := removeFirst (fun p => p.1 == uid) m.connections }
      else
        { connections := updateFirst (fun p => p.1 == uid) (fun p => (p.1, l1)) m.connections }
    else m

/-- `SSEManager.send_to_user` (sse.py 40-62): no entry for the user → return;
otherwise put the formatted message into every queue (broken queues raise and
are collected), then disconnect each queue that failed. -/
def send_to_user (m : SSEManager) (uid : String) (etype payload : String) : SSEManager :=
  match lookup m uid with
  | none => m
  | some l =>
    let message := format_sse_message etype payload
    let delivered := l.map fun s => if s.broken then s else putMsg message s
    let disconnectedIds := (l.filter fun s => s.broken).map Sub.sid
    let m1 : SSEManager :=
      { connections := updateFirst (fun p => p.1 == uid) (fun p => (p.1, delivered)) m.connections }
    disconnectedIds.foldl (fun acc sid => disconnect acc uid sid) m1

/-- The fan-out result on one user's subscription list: every live (non-broken)
subscription receives exactly one copy of the message appended to its buffer,
and the broken ones are gone. -/
def liveDelivered (message : String) (l : List Sub) : List Sub :=
  l.filterMap fun s => if s.broken then none else some (putMsg message s)

/-- List-level meaning of the disconnect fold, for stating the fan-out
theorem. -/
def removeList (sids : List String) (l : List Sub) : List Sub :=
  sids.foldl (fun acc sid => removeFirst (fun s => s.sid == sid) acc) l

end SSE

/-! ### Concrete states used by witnesses and counterexamples -/

namespace Fixtures

open Models

def countryRu : Country := { id := "c1", code := "ru", price_from := 1500, available := true }

def serviceTg : Service := { id := "s1", name := "telegram", price_from := 1000, available := true }

def odTg : OrderService.OrderCreate := { telegram_id := "t1", country_id := "c1", service_id := "s1" }

def smsOk : OrderService.SMSNumberResult :=
  { success := true, phone_number := some "+79160000001", order_id := some "E1" }

/-- A state in which `create_order` fails because the user row is absent. -/
def dbNoUser : DB :=
  { users := [], countries := [countryRu], services := [serviceTg], orders := [], messages := [] }

/-- A state in which `create_order` fails because the balance 100 is below the
price 1500. -/
def dbPoor : DB :=
  { users := [{ telegram_id := "t1", balance := 100 }], countries := [countryRu],
    services := [serviceTg], orders := [], messages := [] }

/-- A state in which `create_order` succeeds: balance 2000, price 1500. -/
def dbRich : DB :=
  { users := [{ telegram_id := "t1", balance := 2000 }], countries := [countryRu],
    services := [serviceTg], orders := [], messages := [] }

def pendingOrder : Order :=
  { id := "A", phone_number := "+79160000001", country_id := "c1", service_id := "s1",
    user_telegram_id := "t1", price := 1500, status := "pending", expires_at := 100,
    external_order_id := some "E1" }

/-- A state with one pending order and one user, for cancel/expire scenarios. -/
def dbPending : DB :=
  { users := [{ telegram_id := "t1", balance := 500 }], countries := [countryRu],
    services := [serviceTg], orders := [pendingOrder], messages := [] }

/-- A state whose pending order "A" already stores a message whose sanitized
text equals that of the incoming webhook below: the duplicate-suppression
branch. -/
def dbDup : DB :=
  { users := [{ telegram_id := "t1", balance := 500 }], countries := [countryRu],
    services := [serviceTg], orders := [pendingOrder],
    messages := [{ id := "m1", order_id := "A", text := "Your code: 1234", code := some "1234" }] }

def dataDup : SMSWebhook.SMSWebhookData :=
  { order_id := "A", phone_number := "+79160000001", message_text := "Your  code: 1234",
    code := some "1234" }

/-- Two pending orders sharing one phone number, and a webhook payload whose
`order_id` matches neither an id nor an external id, so lookup falls back to
the phone number. -/
def dbTwoPending : DB :=
  { users := [{ telegram_id := "t1", balance := 500 }], countries := [countryRu],
    services := [serviceTg],
    orders :=
      [{ id := "A", phone_number := "+79160000001", country_id := "c1", service_id := "s1",
         user_telegram_id := "t1", price := 1500, status := "pending", expires_at := 100,
         external_order_id := none },
       { id := "B", phone_number := "+79160000001", country_id := "c1", service_id := "s1",
         user_telegram_id := "t1", price := 1500, status := "pending", expires_at := 100,
         external_order_id := none }],
    messages := [] }

def dataPhoneOnly : SMSWebhook.SMSWebhookData :=
  { order_id := "Z", phone_number := "+79160000001", message_text := "code: 1234",
    code := some "1234" }

/-- A webhook payload matching `dbPending`'s order "A" by id. -/
def dataForA : SMSWebhook.SMSWebhookData :=
  { order_id := "A", phone_number := "+79160000001", message_text := "code: 1234",
    code := some "1234" }

/-- `dbPending` after its order "A" has already reached `received`: the
invalid-transition branch of the webhook pipeline. -/
def dbReceived : DB :=
  { users := [{ telegram_id := "t1", balance := 500 }], countries := [countryRu],
    services := [serviceTg],
    orders := [{ pendingOrder with status := "received" }],
    messages := [{ id := "m1", order_id := "A", text := "code: 1234", code := some "1234" }] }

/-- Registry with two live subscriptions and one broken subscription for user
"u1", and an unrelated user "u2". -/
def mgr3 : SSE.SSEManager :=
  { connections :=
      [("u1", [{ sid := "q1", broken := false, buf := [] },
               { sid := "q2", broken := true, buf := [] },
               { sid := "q3", broken := false, buf := [] }]),
       ("u2", [{ sid := "q4", broken := false, buf := [] }])] }

end Fixtures

/-! ## Generic lemmas about `find?`, `updateFirst`, `removeFirst` -/

theorem updateFirst_of_find_none {α : Type} {p : α → Bool} (f : α → α) {l : List α}
    (h : l.find? p = none) : updateFirst p f l = l := by
  induction l with
  | nil => rfl
  | cons x xs ih =>
    cases hx : p x with
    | true => rw [List.find?_cons_of_pos _ hx] at h; exact absurd h (by simp)
    | false =>
      rw [List.find?_cons_of_neg _ (by simp [hx])] at h
      simp [updateFirst, hx, ih h]

theorem find_updateFirst_both {α : Type} {p q : α → Bool} {f : α → α} {l : List α} {a : α}
    (hp : l.find? p = some a) (hq : l.find? q = some a) (hpf : p (f a) = true) :
    (updateFirst q f l).find? p = some (f a) := by
  induction l with
  | nil => simp at hp
  | cons x xs ih =>
    cases hqx : q x with
    | true =>
      rw [List.find?_cons_of_pos _ hqx] at hq
      obtain rfl : x = a := by injection hq
      simp only [updateFirst, hqx, if_true]
      exact List.find?_cons_of_pos _ hpf
    | false =>
      rw [List.find?_cons_of_neg _ (by simp [hqx])] at hq
      have hqa : q a = true := List.find?_some hq
      cases hpx : p x with
      | true =>
        rw [List.find?_cons_of_pos _ hpx] at hp
        obtain rfl : x = a := by injection hp
        rw [hqa] at hqx
        exact absurd hqx (by simp)
      | false =>
        rw [List.find?_cons_of_neg _ (by simp [hpx])] at hp
        simp only [updateFirst, hqx, Bool.false_eq_true, if_false]
        rw [List.find?_cons_of_neg _ (by simp [hpx])]
        exact ih hp hq

theorem find_none_updateFirst {α : Type} {p q : α → Bool} {f : α → α} {l : List α}
    (hpf : ∀ x, p (f x) = p x) (hp : l.find? p = none) :
    (updateFirst q f l).find? p = none := by
  induction l with
  | nil => rfl
  | cons x xs ih =>
    cases hpx : p x with
    | true => rw [List.find?_cons_of_pos _ hpx] at hp; exact absurd hp (by simp)
    | false =>
      rw [List.find?_cons_of_neg _ (by simp [hpx])] at hp
      cases hqx : q x with
      | true =>
        simp only [updateFirst, hqx, if_true]
        rw [List.find?_cons_of_neg _ (by simp [hpf x, hpx])]
        exact (updateFirst_of_find_none f hp) ▸ hp
      | false =>
        simp only [updateFirst, hqx, Bool.false_eq_true, if_false]
        rw [List.find?_cons_of_neg _ (by simp [hpx])]
        exact ih hp

/-- With distinct ids, the row fetched by an id query for a member's id is that
member itself. -/
theorem find_id_of_nodup {l : List Models.Order} {o : Models.Order}
    (hnd : (l.map Models.Order.id).Nodup) (ho : o ∈ l) :
    l.find? (fun x => x.id == o.id) = some o := by
  induction l with
  | nil => simp at ho
  | cons x xs ih =>
    rw [List.map_cons, List.nodup_cons] at hnd
    rcases List.mem_cons.mp ho with rfl | hmem
    · exact List.find?_cons_of_pos _ (by simp)
    · have hne : x.id ≠ o.id := by
        intro he
        exact hnd.1 (he ▸ List.mem_map_of_mem Models.Order.id hmem)
      rw [List.find?_cons_of_neg _ (by simpa using hne)]
      exact ih hnd.2 hmem

/-! ## C6: the status-transition table -/

/-- Shared characterization of the transition validator, used both by the C6
theorem and by the webhook-pipeline proofs. -/
theorem validate_transition_iff (c n : String) :
    SMSValidator.validate_order_status_transition c n = true ↔
      c = "pending" ∧ (n = "received" ∨ n = "expired" ∨ n = "cancelled") := by
  unfold SMSValidator.validate_order_status_transition SMSValidator.valid_transitions
  split_ifs with h1 h2 h3 h4 <;> simp_all [List.contains, List.elem_iff]

/-- C6: a status transition is permitted exactly when the current status is
`pending` and the new status is one of `received`, `expired`, `cancelled`;
`received`, `expired` and `cancelled` have no outgoing edges, and the validator
answers `false` on every other `(current, new)` pair of strings. -/
theorem C6_state_machine_edges :
    (∀ c n : String,
        SMSValidator.validate_order_status_transition c n = true ↔
          c = "pending" ∧ (n = "received" ∨ n = "expired" ∨ n = "cancelled")) ∧
    (∀ t n : String, (t = "received" ∨ t = "expired" ∨ t = "cancelled") →
        SMSValidator.validate_order_status_transition t n = false) := by
  refine ⟨validate_transition_iff, ?_⟩
  intro t n ht
  cases h : SMSValidator.validate_order_status_transition t n
  · rfl
  · have := (validate_transition_iff t n).mp h
    rcases ht with rfl | rfl | rfl <;> simp at this

/-- Witness for C6 at concrete statuses: the `pending → received` edge is
permitted and the terminal `received` has no outgoing edge. -/
theorem C6_state_machine_edges_witness :
    SMSValidator.validate_order_status_transition "pending" "received" = true ∧
    SMSValidator.validate_order_status_transition "received" "expired" = false :=
  ⟨(C6_state_machine_edges.1 "pending" "received").mpr ⟨rfl, Or.inl rfl⟩,
   C6_state_machine_edges.2 "received" "expired" (Or.inl rfl)⟩

/-! ## C8: phone-number validation -/

/-- C8: after keeping only digits and `+`, validation accepts exactly `+`
followed by 10 to 15 digits; `"+7 916 123-45-67"` normalizes to
`+79161234567` and validates, `"12345"` is rejected, and any input whose
stripped form retains more than 15 digits is rejected. -/
theorem C8_phone_validation :
    (∀ s : String,
        SMSValidator.validate_phone_number s = true ↔ SMSValidator.phoneSpecAccepts s) ∧
    (SMSValidator.stripPhoneChars "+7 916 123-45-67".data = "+79161234567".data) ∧
    SMSValidator.validate_phone_number "+7 916 123-45-67" = true ∧
    SMSValidator.validate_phone_number "12345" = false ∧
    (∀ s : String,
        15 < ((SMSValidator.stripPhoneChars s.data).filter Char.isDigit).length →
        SMSValidator.validate_phone_number s = false) := by
  have hiff : ∀ s : String,
      SMSValidator.validate_phone_number s = true ↔ SMSValidator.phoneSpecAccepts s := by
    intro s
    unfold SMSValidator.validate_phone_number SMSValidator.phoneSpecAccepts
    split_ifs with hs
    · subst hs
      simp [SMSValidator.stripPhoneChars]
    · cases h : SMSValidator.stripPhoneChars s.data with
      | nil => simp [SMSValidator.phoneRegexMatch, h]
      | cons c ds =>
        simp only [SMSValidator.phoneRegexMatch, h]
        constructor
        · intro hb
          simp only [Bool.and_eq_true, beq_iff_eq, decide_eq_true_eq, List.all_eq_true] at hb
          exact ⟨ds, by rw [hb.1.1.1], fun x hx => hb.1.1.2 x hx, hb.1.2, hb.2⟩
        · rintro ⟨ds1, hds1, hall, h10, h15⟩
          obtain ⟨rfl, rfl⟩ : c = '+' ∧ ds = ds1 :=
            ⟨by injection hds1, by injection hds1⟩
          simp [List.all_eq_true]
          exact ⟨⟨hall, h10⟩, h15⟩
  refine ⟨hiff, by decide, by decide, by decide, ?_⟩
  intro s hlen
  cases hv : SMSValidator.validate_phone_number s
  · rfl
  · obtain ⟨ds, hds, hall, h10, h15⟩ := (hiff s).mp hv
    rw [hds] at hlen
    have : ds.filter Char.isDigit = ds := List.filter_eq_self.mpr hall
    simp only [List.filter_cons] at hlen
    rw [this] at hlen
    have hplus : Char.isDigit '+' = false := by decide
    rw [hplus] at hlen
    simp at hlen
    omega

/-- Witness for C8: the iff applied at the valid normalized number, and the
over-15-digit rejection applied at a 16-digit candidate. -/
theorem C8_phone_validation_witness :
    SMSValidator.phoneSpecAccepts "+79161234567" ∧
    SMSValidator.validate_phone_number "+1234567890123456" = false :=
  ⟨(C8_phone_validation.1 "+79161234567").mp (by decide),
   C8_phone_validation.2.2.2.2 "+1234567890123456" (by decide)⟩

/-! ## C2: failure behaviour of order creation -/

/-- Every failure path of `create_order` returns `(none, db)`: either the whole
call is the unchanged-state failure, or the reservation succeeded and an order
came back. -/
theorem create_order_none_or_some (db : Models.DB) (od : OrderService.OrderCreate)
    (sms : Option OrderService.SMSNumberResult) (nid : String) (e : Nat) :
    OrderService.create_order db od sms nid e = (none, db) ∨
    (∃ r, sms = some r ∧ r.success = true ∧
      ∃ o db', OrderService.create_order db od sms nid e = (some o, db')) := by
  unfold OrderService.create_order
  split
  · exact Or.inl rfl
  · split
    · exact Or.inl rfl
    · split
      · exact Or.inl rfl
      · split
        · exact Or.inl rfl
        · split
          · exact Or.inl rfl
          · split
            · exact Or.inl rfl
            · split
              · exact Or.inl rfl
              · exact Or.inr ⟨_, rfl, by simp_all, _, _, rfl⟩

/-- C2 counterexample: two differently-caused failures — user row absent
versus balance 100 below the price 1500 — return the identical untyped result
`none`, so the result does not identify the cause; no `NotFound` /
`InsufficientBalance` distinction exists in the code. -/
theorem C2_counterexample :
    OrderService.findUser Fixtures.dbNoUser "t1" = none ∧
    OrderService.findUser Fixtures.dbPoor "t1" = some { telegram_id := "t1", balance := 100 } ∧
    OrderService.create_order Fixtures.dbNoUser Fixtures.odTg (some Fixtures.smsOk) "O1" 200 =
      (none, Fixtures.dbNoUser) ∧
    OrderService.create_order Fixtures.dbPoor Fixtures.odTg (some Fixtures.smsOk) "O1" 200 =
      (none, Fixtures.dbPoor) :=
  ⟨rfl, rfl, rfl, rfl⟩

/-- C2 (amended): on any failed creation — reservation failure or any failed
precondition — `create_order` returns the untyped failure `none` and performs
no state mutation (in particular no balance mutation); a missing or
unsuccessful reservation always fails; and a successful creation implies the
reservation succeeded (the debit happens only after a successful
reservation). -/
theorem C2_fail_closed_creation :
    (∀ db od sms nid e, (OrderService.create_order db od sms nid e).1 = none →
        (OrderService.create_order db od sms nid e).2 = db) ∧
    (∀ db od sms nid e, (sms = none ∨ ∃ r, sms = some r ∧ r.success = false) →
        (OrderService.create_order db od sms nid e).1 = none) ∧
    (∀ db od sms nid e o db', OrderService.create_order db od sms nid e = (some o, db') →
        ∃ r, sms = some r ∧ r.success = true) := by
  refine ⟨?_, ?_, ?_⟩
  · intro db od sms nid e h
    rcases create_order_none_or_some db od sms nid e with heq | ⟨r, _, _, o, db', heq⟩
    · rw [heq]
    · rw [heq] at h; exact absurd h (by simp)
  · intro db od sms nid e hsms
    rcases create_order_none_or_some db od sms nid e with heq | ⟨r, hr, hsuc, _, _, _⟩
    · rw [heq]
    · rcases hsms with rfl | ⟨r1, hr1, hfail⟩
      · exact absurd hr (by simp)
      · rw [hr1] at hr
        obtain rfl : r1 = r := by injection hr
        rw [hfail] at hsuc
        exact absurd hsuc (by simp)
  · intro db od sms nid e o db' h
    rcases create_order_none_or_some db od sms nid e with heq | ⟨r, hr, hsuc, _, _, _⟩
    · rw [heq] at h
      exact absurd (congrArg Prod.fst h) (by simp)
    · exact ⟨r, hr, hsuc⟩

/-- Witness for C2 (amended), at concrete states: a reservation given as
`none` fails, and the user-absent failure leaves the state unchanged. -/
theorem C2_fail_closed_creation_witness :
    (OrderService.create_order Fixtures.dbPoor Fixtures.odTg none "O1" 200).1 = none ∧
    (OrderService.create_order Fixtures.dbNoUser Fixtures.odTg (some Fixtures.smsOk) "O1" 200).2 =
      Fixtures.dbNoUser :=
  ⟨C2_fail_closed_creation.2.1 Fixtures.dbPoor Fixtures.odTg none "O1" 200 (Or.inl rfl),
   C2_fail_closed_creation.1 Fixtures.dbNoUser Fixtures.odTg (some Fixtures.smsOk) "O1" 200 rfl⟩

/-! ## C3: result semantics of the webhook application -/

/-- C3 counterexample: a processed webhook for a located, still-`pending` order
whose text duplicates the stored message returns `true` (with no state change),
not `false` as claimed: duplicate suppression is reported as success. -/
theorem C3_counterexample :
    SMSWebhook.find_order Fixtures.dbDup "A" "+79160000001" = some Fixtures.pendingOrder ∧
    Fixtures.pendingOrder.status = "pending" ∧
    SMSValidator.is_message_duplicate
      (SMSWebhook.messagesForOrder Fixtures.dbDup "A") Fixtures.dataDup.message_text = true ∧
    SMSWebhook.process_validated_webhook Fixtures.dbDup Fixtures.dataDup "m2" =
      (true, Fixtures.dbDup) :=
  ⟨rfl, rfl, rfl, rfl⟩

/-- C3 (amended): for a located order, the result is `true` exactly when the
order is `pending` — both when the message is applied (stored, order moved to
`received`) and when the text is duplicate-suppressed (nothing stored); the
result is `false` when the order is not `pending` and when no order is located
(suppression, not an error, in every case). -/
theorem C3_apply_message_result_semantics :
    (∀ db data nid, SMSWebhook.find_order db data.order_id data.phone_number = none →
        SMSWebhook.process_validated_webhook db data nid = (false, db)) ∧
    (∀ db data nid o, SMSWebhook.find_order db data.order_id data.phone_number = some o →
        o.status ≠ "pending" →
        SMSWebhook.process_validated_webhook db data nid = (false, db)) ∧
    (∀ db data nid o, SMSWebhook.find_order db data.order_id data.phone_number = some o →
        o.status = "pending" →
        SMSValidator.is_message_duplicate (SMSWebhook.messagesForOrder db o.id)
          data.message_text = true →
        SMSWebhook.process_validated_webhook db data nid = (true, db)) ∧
    (∀ db data nid o, SMSWebhook.find_order db data.order_id data.phone_number = some o →
        o.status = "pending" →
        SMSValidator.is_message_duplicate (SMSWebhook.messagesForOrder db o.id)
          data.message_text = false →
        (SMSWebhook.process_validated_webhook db data nid).1 = true ∧
        (SMSWebhook.process_validated_webhook db data nid).2.messages =
          db.messages ++
            [{ id := nid, order_id := o.id, text := data.message_text, code := data.code }]) := by
  refine ⟨?_, ?_, ?_, ?_⟩
  · intro db data nid h
    unfold SMSWebhook.process_validated_webhook
    rw [h]
  · intro db data nid o h hst
    unfold SMSWebhook.process_validated_webhook
    rw [h]
    have hv : SMSValidator.validate_order_status_transition o.status "received" = false := by
      cases hvv : SMSValidator.validate_order_status_transition o.status "received"
      · rfl
      · exact absurd ((validate_transition_iff _ _).mp hvv).1 hst
    simp only [hv, Bool.not_false, if_true]
  · intro db data nid o h hst hdup
    unfold SMSWebhook.process_validated_webhook
    rw [h]
    have hv : SMSValidator.validate_order_status_transition o.status "received" = true :=
      (validate_transition_iff _ _).mpr ⟨hst, Or.inl rfl⟩
    simp only [hv, hdup, Bool.not_true, Bool.false_eq_true, if_false, if_true]
  · intro db data nid o h hst hdup
    unfold SMSWebhook.process_validated_webhook
    rw [h]
    have hv : SMSValidator.validate_order_status_transition o.status "received" = true :=
      (validate_transition_iff _ _).mpr ⟨hst, Or.inl rfl⟩
    simp only [hv, hdup, Bool.not_true, Bool.false_eq_true, if_false]
    exact ⟨trivial, trivial⟩

/-- Witness for C3 (amended): at the duplicate fixture the result is `true`
with nothing stored, and at the already-`received` fixture it is `false`. -/
theorem C3_apply_message_result_semantics_witness :
    SMSWebhook.process_validated_webhook Fixtures.dbDup Fixtures.dataDup "m2" =
      (true, Fixtures.dbDup) ∧
    SMSWebhook.process_validated_webhook Fixtures.dbReceived Fixtures.dataForA "m2" =
      (false, Fixtures.dbReceived) :=
  ⟨C3_apply_message_result_semantics.2.2.1 Fixtures.dbDup Fixtures.dataDup "m2"
      Fixtures.pendingOrder rfl rfl rfl,
   C3_apply_message_result_semantics.2.1 Fixtures.dbReceived Fixtures.dataForA "m2"
      { Fixtures.pendingOrder with status := "received" } rfl (by decide)⟩

/-! ## C1: escrow conservation -/

/-- Shape of a successful creation: the preconditions held, the price is the
max of the two floor prices, and the returned state debits exactly that price
from the owning user's row. -/
theorem create_order_some {db : Models.DB} {od : OrderService.OrderCreate}
    {sms : Option OrderService.SMSNumberResult} {nid : String} {e : Nat}
    {o : Models.Order} {db' : Models.DB}
    (h : OrderService.create_order db od sms nid e = (some o, db')) :
    ∃ user country service,
      OrderService.findUser db od.telegram_id = some user ∧
      OrderService.findCountry db od.country_id = some country ∧
      OrderService.findService db od.service_id = some service ∧
      o.price = max country.price_from service.price_from ∧
      db'.users = updateFirst (fun u => u.telegram_id == od.telegram_id)
        (fun u => { u with balance := u.balance - o.price }) db.users := by
  unfold OrderService.create_order at h
  split at h
  · simp at h
  next user hu =>
    split at h
    · simp at h
    next country hc =>
      split at h
      · simp at h
      next service hs =>
        split at h
        · simp at h
        · split at h
          · simp at h
          · split at h
            · simp at h
            next sms1 =>
              split at h
              · simp at h
              · rw [Prod.mk.injEq] at h
                obtain ⟨h1, rfl⟩ := h
                injection h1 with h1
                subst h1
                exact ⟨user, country, service, hu, hc, hs, rfl, rfl⟩

/-- C1: the amount debited at creation equals the stored price
`max(country floor, service floor)`; cancellation and expiration credit exactly
the order's stored price back to the owning user's row; the webhook path that
reaches `received` never touches any balance. -/
theorem C1_escrow_conservation :
    (∀ db od sms nid e o db' u,
        OrderService.create_order db od sms nid e = (some o, db') →
        OrderService.findUser db od.telegram_id = some u →
        (∃ c s, OrderService.findCountry db od.country_id = some c ∧
          OrderService.findService db od.service_id = some s ∧
          o.price = max c.price_from s.price_from) ∧
        OrderService.findUser db' od.telegram_id =
          some { u with balance := u.balance - o.price }) ∧
    (∀ db oid tid o u,
        db.orders.find? (OrderService.cancelQuery oid tid) = some o →
        OrderService.findUser db tid = some u →
        (OrderService.cancel_order db oid tid).1 = true ∧
        OrderService.findUser (OrderService.cancel_order db oid tid).2 tid =
          some { u with balance := u.balance + o.price }) ∧
    (∀ db oid o u,
        db.orders.find? (fun x => x.id == oid) = some o →
        o.status = "pending" →
        OrderService.findUser db o.user_telegram_id = some u →
        OrderService.findUser (OrderService.monitor_order_expiration db oid)
          o.user_telegram_id = some { u with balance := u.balance + o.price }) ∧
    (∀ db data nid,
        (SMSWebhook.process_validated_webhook db data nid).2.users = db.users) := by
  refine ⟨?_, ?_, ?_, ?_⟩
  · intro db od sms nid e o db' u h hu
    obtain ⟨user, country, service, hu1, hc, hs, hp, husers⟩ := create_order_some h
    rw [hu] at hu1
    obtain rfl : u = user := by injection hu1
    refine ⟨⟨country, service, hc, hs, hp⟩, ?_⟩
    unfold OrderService.findUser
    rw [husers]
    exact find_updateFirst_both hu hu (by simpa using List.find?_some hu)
  · intro db oid tid o u hfind hu
    unfold OrderService.cancel_order
    simp only [hfind]
    refine ⟨trivial, ?_⟩
    exact find_updateFirst_both hu hu (by simpa using List.find?_some hu)
  · intro db oid o u hfind hst hu
    unfold OrderService.monitor_order_expiration
    simp only [hfind, hst]
    simp only [beq_self_eq_true, if_true]
    exact find_updateFirst_both hu hu (by simpa using List.find?_some hu)
  · intro db data nid
    unfold SMSWebhook.process_validated_webhook
    cases hfo : SMSWebhook.find_order db data.order_id data.phone_number with
    | none => rfl
    | some o =>
      cases hv : SMSValidator.validate_order_status_transition o.status "received" with
      | false => simp [hv]
      | true =>
        cases hd : SMSValidator.is_message_duplicate (SMSWebhook.messagesForOrder db o.id)
            data.message_text with
        | true => simp [hv, hd]
        | false => simp [hv, hd]

/-- Witness for C1 at concrete states: creation debits 1500 = max(1500, 1000)
from balance 2000; cancellation and expiration each credit the stored price
1500 back onto balance 500; the webhook application leaves the user table
untouched. -/
theorem C1_escrow_conservation_witness :
    OrderService.findUser
        (OrderService.create_order Fixtures.dbRich Fixtures.odTg (some Fixtures.smsOk)
          "O1" 200).2 "t1" = some { telegram_id := "t1", balance := 500 } ∧
    OrderService.findUser (OrderService.cancel_order Fixtures.dbPending "A" "t1").2 "t1" =
      some { telegram_id := "t1", balance := 2000 } ∧
    OrderService.findUser (OrderService.monitor_order_expiration Fixtures.dbPending "A") "t1" =
      some { telegram_id := "t1", balance := 2000 } ∧
    (SMSWebhook.process_validated_webhook Fixtures.dbPending Fixtures.dataForA "m1").2.users =
      Fixtures.dbPending.users := by
  have h1 := (C1_escrow_conservation.1 Fixtures.dbRich Fixtures.odTg (some Fixtures.smsOk)
      "O1" 200 _ _ { telegram_id := "t1", balance := 2000 } rfl rfl).2
  have h2 := (C1_escrow_conservation.2.1 Fixtures.dbPending "A" "t1" Fixtures.pendingOrder
      { telegram_id := "t1", balance := 500 } rfl rfl).2
  have h3 := C1_escrow_conservation.2.2.1 Fixtures.dbPending "A" Fixtures.pendingOrder
      { telegram_id := "t1", balance := 500 } rfl rfl rfl
  have h4 := C1_escrow_conservation.2.2.2 Fixtures.dbPending Fixtures.dataForA "m1"
  exact ⟨h1, h2, h3, h4⟩

/-! ## C5: idempotence of expiration -/

/-- C5: expiring a pending order (the guarded operation that both the per-order
timer and the periodic sweep perform: re-read, check `pending`, then
`_expire_order`) credits the user once and marks the order `expired`; running
the same operation again on the resulting state is the identity, so the price
is credited exactly once across the two invocations. -/
theorem C5_expiration_idempotent :
    ∀ db oid o u,
      db.orders.find? (fun x => x.id == oid) = some o →
      o.status = "pending" →
      OrderService.findUser db o.user_telegram_id = some u →
      OrderService.findUser (OrderService.monitor_order_expiration db oid)
        o.user_telegram_id = some { u with balance := u.balance + o.price } ∧
      ((OrderService.monitor_order_expiration db oid).orders.find?
          (fun x => x.id == oid)).map Models.Order.status = some "expired" ∧
      OrderService.monitor_order_expiration (OrderService.monitor_order_expiration db oid) oid =
        OrderService.monitor_order_expiration db oid := by
  intro db oid o u hfind hst hu
  have hoid : o.id = oid := by simpa using List.find?_some hfind
  subst hoid
  have hmon : OrderService.monitor_order_expiration db o.id = OrderService.expireOrderRaw db o := by
    unfold OrderService.monitor_order_expiration
    simp only [hfind, hst, beq_self_eq_true, if_true]
  have hfind1 : (OrderService.expireOrderRaw db o).orders.find? (fun x => x.id == o.id) =
      some { o with status := "expired" } :=
    find_updateFirst_both hfind hfind (by simp)
  refine ⟨?_, ?_, ?_⟩
  · rw [hmon]
    exact find_updateFirst_both hu hu (by simpa using List.find?_some hu)
  · rw [hmon, hfind1]
    rfl
  · rw [hmon]
    unfold OrderService.monitor_order_expiration
    rw [hfind1]
    simp

/-- Witness for C5 at the concrete pending state: one refund of 1500 onto
balance 500, the order ends `expired`, and the second invocation is the
identity. -/
theorem C5_expiration_idempotent_witness :
    OrderService.findUser (OrderService.monitor_order_expiration Fixtures.dbPending "A") "t1" =
      some { telegram_id := "t1", balance := 2000 } ∧
    ((OrderService.monitor_order_expiration Fixtures.dbPending "A").orders.find?
        (fun x => x.id == "A")).map Models.Order.status = some "expired" ∧
    OrderService.monitor_order_expiration
        (OrderService.monitor_order_expiration Fixtures.dbPending "A") "A" =
      OrderService.monitor_order_expiration Fixtures.dbPending "A" :=
  C5_expiration_idempotent Fixtures.dbPending "A" Fixtures.pendingOrder
    { telegram_id := "t1", balance := 500 } rfl rfl rfl

/-! ## C4: webhook idempotence -/

/-- The applying run of the webhook pipeline, in closed form. -/
theorem process_applies {db : Models.DB} {data : SMSWebhook.SMSWebhookData}
    {o : Models.Order} (nid : String)
    (hfo : SMSWebhook.find_order db data.order_id data.phone_number = some o)
    (hst : o.status = "pending")
    (hdup : SMSValidator.is_message_duplicate (SMSWebhook.messagesForOrder db o.id)
      data.message_text = false) :
    SMSWebhook.process_validated_webhook db data nid =
      (true,
        { db with
          orders := updateFirst (fun x => x.id == o.id)
            (fun x => { x with status := "received" }) db.orders
          messages := db.messages ++
            [{ id := nid, order_id := o.id, text := data.message_text, code := data.code }] }) := by
  unfold SMSWebhook.process_validated_webhook
  have hv : SMSValidator.validate_order_status_transition o.status "received" = true :=
    (validate_transition_iff o.status "received").mpr ⟨hst, Or.inl rfl⟩
  simp only [hfo, hv, hdup, Bool.not_true, Bool.false_eq_true, if_false]

/-- C4 counterexample: two pending orders "A" and "B" share one phone number;
the payload's reference "Z" matches no id and no external id, so lookup falls
back to the phone number.  The first delivery applies to "A"; the second,
byte-identical delivery does NOT leave the state unchanged — it stores a second
message and transitions the second order "B" as well. -/
theorem C4_counterexample :
    (SMSWebhook.process_validated_webhook Fixtures.dbTwoPending Fixtures.dataPhoneOnly "m1").1 =
      true ∧
    (SMSWebhook.process_validated_webhook
        (SMSWebhook.process_validated_webhook Fixtures.dbTwoPending Fixtures.dataPhoneOnly
          "m1").2 Fixtures.dataPhoneOnly "m2").2 ≠
      (SMSWebhook.process_validated_webhook Fixtures.dbTwoPending Fixtures.dataPhoneOnly
        "m1").2 ∧
    (SMSWebhook.process_validated_webhook
        (SMSWebhook.process_validated_webhook Fixtures.dbTwoPending Fixtures.dataPhoneOnly
          "m1").2 Fixtures.dataPhoneOnly "m2").2.messages.length = 2 ∧
    (SMSWebhook.process_validated_webhook
        (SMSWebhook.process_validated_webhook Fixtures.dbTwoPending Fixtures.dataPhoneOnly
          "m1").2 Fixtures.dataPhoneOnly "m2").2.orders.map Models.Order.status =
      ["received", "received"] :=
  ⟨rfl, by decide, rfl, rfl⟩

/-- C4 (amended): when the payload locates the pending order by its id or by
its external id (not by the phone-number fallback), delivering it twice stores
exactly one message and performs exactly one `pending → received` transition:
the first run applies, the second returns `false` and changes nothing. -/
theorem C4_webhook_idempotent :
    ∀ db data nid1 nid2 o,
      (db.orders.map Models.Order.id).Nodup →
      (db.orders.find? (fun x => x.id == data.order_id) = some o ∨
        (db.orders.find? (fun x => x.id == data.order_id) = none ∧
         db.orders.find? (fun x => x.external_order_id == some data.order_id) = some o)) →
      o.status = "pending" →
      SMSValidator.is_message_duplicate (SMSWebhook.messagesForOrder db o.id)
        data.message_text = false →
      (SMSWebhook.process_validated_webhook db data nid1).1 = true ∧
      (SMSWebhook.process_validated_webhook db data nid1).2.messages =
        db.messages ++
          [{ id := nid1, order_id := o.id, text := data.message_text, code := data.code }] ∧
      ((SMSWebhook.process_validated_webhook db data nid1).2.orders.find?
          (fun x => x.id == o.id)).map Models.Order.status = some "received" ∧
      SMSWebhook.process_validated_webhook
          (SMSWebhook.process_validated_webhook db data nid1).2 data nid2 =
        (false, (SMSWebhook.process_validated_webhook db data nid1).2) := by
  intro db data nid1 nid2 o hnd hloc hst hdup
  have hmem : o ∈ db.orders := by
    rcases hloc with h | ⟨_, h⟩ <;> exact List.mem_of_find?_eq_some h
  have hfid : db.orders.find? (fun x => x.id == o.id) = some o := find_id_of_nodup hnd hmem
  have hfo : SMSWebhook.find_order db data.order_id data.phone_number = some o := by
    unfold SMSWebhook.find_order
    rcases hloc with h | ⟨hn, he⟩
    · simp only [h]
    · simp only [hn, he]
  have happ := process_applies nid1 hfo hst hdup
  rw [happ]
  have hfid1 :
      (updateFirst (fun x => x.id == o.id) (fun x => { x with status := "received" })
        db.orders).find? (fun x => x.id == o.id) =
        some { o with status := "received" } :=
    find_updateFirst_both hfid hfid (by simp)
  refine ⟨rfl, rfl, ?_, ?_⟩
  · simpa using congrArg (Option.map Models.Order.status) hfid1
  · have hfo1 : SMSWebhook.find_order
        { db with
          orders := updateFirst (fun x => x.id == o.id)
            (fun x => { x with status := "received" }) db.orders
          messages := db.messages ++
            [{ id := nid1, order_id := o.id, text := data.message_text, code := data.code }] }
        data.order_id data.phone_number = some { o with status := "received" } := by
      unfold SMSWebhook.find_order
      rcases hloc with h | ⟨hn, he⟩
      · have hio : o.id = data.order_id := by simpa using List.find?_some h
        have hq : db.orders.find? (fun x => x.id == data.order_id) = some o := h
        have h1 :
            (updateFirst (fun x => x.id == o.id) (fun x => { x with status := "received" })
              db.orders).find? (fun x => x.id == data.order_id) =
              some { o with status := "received" } :=
          find_updateFirst_both hq hfid (by simpa using List.find?_some h)
        simp only [h1]
      · have h1 :
            (updateFirst (fun x => x.id == o.id) (fun x => { x with status := "received" })
              db.orders).find? (fun x => x.id == data.order_id) = none :=
          find_none_updateFirst (by intro x; rfl) hn
        have h2 :
            (updateFirst (fun x => x.id == o.id) (fun x => { x with status := "received" })
              db.orders).find? (fun x => x.external_order_id == some data.order_id) =
              some { o with status := "received" } :=
          find_updateFirst_both he hfid (by simpa using List.find?_some he)
        simp only [h1, h2]
    unfold SMSWebhook.process_validated_webhook
    simp only [hfo1]
    have hv : SMSValidator.validate_order_status_transition
        (Models.Order.status { o with status := "received" }) "received" = false := rfl
    simp only [hv, Bool.not_false, if_true]

/-- Witness for C4 (amended) at the concrete pending state, payload matched by
id: one stored message, one transition, and a no-op second delivery. -/
theorem C4_webhook_idempotent_witness :
    (SMSWebhook.process_validated_webhook Fixtures.dbPending Fixtures.dataForA "m1").1 = true ∧
    (SMSWebhook.process_validated_webhook Fixtures.dbPending Fixtures.dataForA "m1").2.messages =
      Fixtures.dbPending.messages ++
        [{ id := "m1", order_id := "A", text := "code: 1234", code := some "1234" }] ∧
    ((SMSWebhook.process_validated_webhook Fixtures.dbPending Fixtures.dataForA
        "m1").2.orders.find? (fun x => x.id == "A")).map Models.Order.status =
      some "received" ∧
    SMSWebhook.process_validated_webhook
        (SMSWebhook.process_validated_webhook Fixtures.dbPending Fixtures.dataForA "m1").2
        Fixtures.dataForA "m2" =
      (false, (SMSWebhook.process_validated_webhook Fixtures.dbPending Fixtures.dataForA
        "m1").2) :=
  C4_webhook_idempotent Fixtures.dbPending Fixtures.dataForA "m1" "m2" Fixtures.pendingOrder
    (by decide) (Or.inl rfl) rfl rfl

/-! ## C7: verification-code extraction -/

namespace SMSValidator

theorem has4_cons {t : List Char} (h : has4ConsecutiveDigits t = true) (x : Char) :
    has4ConsecutiveDigits (x :: t) = true := by
  match t, h with
  | c1 :: c2 :: c3 :: c4 :: rest, h =>
    unfold has4ConsecutiveDigits
    rw [h]
    simp

theorem has4_append_left (l : List Char) {r : List Char}
    (h : has4ConsecutiveDigits r = true) : has4ConsecutiveDigits (l ++ r) = true := by
  induction l with
  | nil => simpa using h
  | cons x xs ih => exact has4_cons ih x

theorem has4_start {r : List Char} (l2 : List Char) (hall : r.all Char.isDigit = true)
    (hlen : 4 ≤ r.length) : has4ConsecutiveDigits (r ++ l2) = true := by
  match r, hlen with
  | a :: b :: c :: d :: r', _ =>
    simp only [List.all_cons, Bool.and_eq_true] at hall
    unfold has4ConsecutiveDigits
    simp [hall.1, hall.2.1, hall.2.2.1, hall.2.2.2.1]

/-- A digit run of length at least 4 sitting anywhere inside a text makes
`has4ConsecutiveDigits` true. -/
theorem has4_of_run {l1 r l2 : List Char} (hall : r.all Char.isDigit = true)
    (hlen : 4 ≤ r.length) : has4ConsecutiveDigits (l1 ++ r ++ l2) = true := by
  rw [List.append_assoc]
  exact has4_append_left l1 (has4_start l2 hall hlen)

theorem has4_of_suffix {s1 s : List Char} (hsuf : s1 <:+ s)
    (h : has4ConsecutiveDigits s1 = true) : has4ConsecutiveDigits s = true := by
  obtain ⟨pre, rfl⟩ := hsuf
  exact has4_append_left pre h

/-- Every run produced by `digitRunsGo` consists of digit characters. -/
theorem digitRunsGo_all_digit :
    ∀ (cs : List Char) (prev : Option Char) (acc : List Char),
      acc.all Char.isDigit = true →
      ∀ t ∈ digitRunsGo prev acc cs, t.2.1.all Char.isDigit = true := by
  intro cs
  induction cs with
  | nil =>
    intro prev acc hacc t ht
    unfold digitRunsGo at ht
    by_cases he : acc.isEmpty
    · rw [if_pos he] at ht; simp at ht
    · rw [if_neg he] at ht
      simp only [List.mem_singleton] at ht
      subst ht
      simpa using hacc
  | cons c cs ih =>
    intro prev acc hacc t ht
    unfold digitRunsGo at ht
    by_cases hd : c.isDigit
    · rw [if_pos hd] at ht
      exact ih prev (c :: acc) (by simp [hd, hacc]) t ht
    · rw [if_neg hd] at ht
      by_cases he : acc.isEmpty
      · rw [if_pos he] at ht
        exact ih (some c) [] rfl t ht
      · rw [if_neg he] at ht
        rcases List.mem_cons.mp ht with rfl | hmem
        · simpa using hacc
        · exact ih (some c) [] rfl t hmem
end SMSValidator

namespace SMSValidator

/-- Every run produced by `digitRunsGo` occurs contiguously in the text being
scanned (`acc.reverse ++ cs`, the part of the input not yet emitted). -/
theorem digitRunsGo_infix :
    ∀ (cs : List Char) (prev : Option Char) (acc : List Char),
      ∀ t ∈ digitRunsGo prev acc cs,
        ∃ l1 l2, acc.reverse ++ cs = l1 ++ t.2.1 ++ l2 := by
  intro cs
  induction cs with
  | nil =>
    intro prev acc t ht
    unfold digitRunsGo at ht
    by_cases he : acc.isEmpty
    · rw [if_pos he] at ht; simp at ht
    · rw [if_neg he] at ht
      simp only [List.mem_singleton] at ht
      subst ht
      exact ⟨[], [], by simp⟩
  | cons c cs ih =>
    intro prev acc t ht
    unfold digitRunsGo at ht
    by_cases hd : c.isDigit
    · rw [if_pos hd] at ht
      obtain ⟨l1, l2, h⟩ := ih prev (c :: acc) t ht
      exact ⟨l1, l2, by simpa using h⟩
    · rw [if_neg hd] at ht
      by_cases he : acc.isEmpty
      · rw [if_pos he] at ht
        obtain ⟨l1, l2, h⟩ := ih (some c) [] t ht
        have hacc : acc = [] := by simpa [List.isEmpty_iff] using he
        subst hacc
        exact ⟨c :: l1, l2, by simpa using congrArg (c :: ·) h⟩
      · rw [if_neg he] at ht
        rcases List.mem_cons.mp ht with rfl | hmem
        · exact ⟨[], c :: cs, by simp⟩
        · obtain ⟨l1, l2, h⟩ := ih (some c) [] t hmem
          refine ⟨acc.reverse ++ c :: l1, l2, ?_⟩
          have h' : cs = l1 ++ t.2.1 ++ l2 := by simpa using h
          rw [h']
          simp

/-- `dropPrefixCI` returns a suffix of its input. -/
theorem dropPrefixCI_suffix :
    ∀ (label s s1 : List Char), dropPrefixCI label s = some s1 → s1 <:+ s := by
  intro label
  induction label with
  | nil =>
    intro s s1 h
    unfold dropPrefixCI at h
    obtain rfl : s = s1 := by injection h
    exact List.suffix_rfl
  | cons l ls ih =>
    intro s s1 h
    cases s with
    | nil => exact absurd h (by simp [dropPrefixCI])
    | cons c cs =>
      unfold dropPrefixCI at h
      by_cases hc : toLowerAscii c = l
      · rw [if_pos hc] at h
        exact (ih cs s1 h).trans (List.suffix_cons c cs)
      · rw [if_neg hc] at h
        exact absurd h (by simp)

/-- Captures of `matchColonSpaceDigits` are digit runs of the scanned suffix:
a capture of length at least 4 forces four consecutive digits, and the rest is
a suffix of the input. -/
theorem matchColonSpaceDigits_spec {s1 cap rest : List Char}
    (h : matchColonSpaceDigits s1 = some (cap, rest)) :
    cap.all Char.isDigit = true ∧ (4 ≤ cap.length → has4ConsecutiveDigits s1 = true) ∧
      rest <:+ s1 := by
  unfold matchColonSpaceDigits at h
  set s3 := (if s1.head? = some ':' then s1.tail else s1).dropWhile isPySpace with hs3
  have hs3suf : s3 <:+ s1 := by
    have hite : (if s1.head? = some ':' then s1.tail else s1) <:+ s1 := by
      split
      · cases s1 with
        | nil => exact List.suffix_rfl
        | cons a as => exact List.suffix_cons a as
      · exact List.suffix_rfl
    exact (List.dropWhile_suffix isPySpace).trans hite
  by_cases hcap : (s3.takeWhile Char.isDigit).isEmpty
  · rw [if_pos hcap] at h
    exact absurd h (by simp)
  · rw [if_neg hcap] at h
    injection h with h
    rw [Prod.mk.injEq] at h
    obtain ⟨rfl, rfl⟩ := h
    refine ⟨List.all_eq_true.mpr (fun a ha => List.mem_takeWhile_imp ha), ?_, ?_⟩
    · intro hlen
      have hsplit : s3.takeWhile Char.isDigit ++ s3.dropWhile Char.isDigit = s3 :=
        List.takeWhile_append_dropWhile Char.isDigit s3
      have h4 : has4ConsecutiveDigits s3 = true := by
        rw [← hsplit]
        exact has4_start _ (List.all_eq_true.mpr (fun a ha => List.mem_takeWhile_imp ha)) hlen
      exact has4_of_suffix hs3suf h4
    · exact (List.dropWhile_suffix Char.isDigit).trans hs3suf

/-- The same facts for `matchLabelAt`, relative to the full scanned suffix. -/
theorem matchLabelAt_spec {label s cap rest : List Char}
    (h : matchLabelAt label s = some (cap, rest)) :
    cap.all Char.isDigit = true ∧ (4 ≤ cap.length → has4ConsecutiveDigits s = true) ∧
      rest <:+ s := by
  unfold matchLabelAt at h
  cases hdp : dropPrefixCI label s with
  | none => rw [hdp] at h; exact absurd h (by simp)
  | some s1 =>
    rw [hdp] at h
    have hs1 : s1 <:+ s := dropPrefixCI_suffix label s s1 hdp
    obtain ⟨hdig, h4, hrest⟩ := matchColonSpaceDigits_spec h
    exact ⟨hdig, fun hlen => has4_of_suffix hs1 (h4 hlen), hrest.trans hs1⟩

end SMSValidator

namespace SMSValidator

theorem matchYourCodeAt_spec {s cap rest : List Char}
    (h : matchYourCodeAt s = some (cap, rest)) :
    cap.all Char.isDigit = true ∧ (4 ≤ cap.length → has4ConsecutiveDigits s = true) ∧
      rest <:+ s := by
  unfold matchYourCodeAt at h
  cases hdp : dropPrefixCI ['y', 'o', 'u', 'r'] s with
  | none => rw [hdp] at h; exact absurd h (by simp)
  | some s1 =>
    rw [hdp] at h
    have h2 : (if (s1.takeWhile isPySpace).isEmpty then none
        else matchLabelAt ['c', 'o', 'd', 'e'] (s1.dropWhile isPySpace)) = some (cap, rest) := h
    by_cases hsp : (s1.takeWhile isPySpace).isEmpty
    · rw [if_pos hsp] at h2; exact absurd h2 (by simp)
    · rw [if_neg hsp] at h2
      have hs1 : s1 <:+ s := dropPrefixCI_suffix _ _ _ hdp
      have hsub : s1.dropWhile isPySpace <:+ s :=
        (List.dropWhile_suffix isPySpace).trans hs1
      obtain ⟨hdig, h4, hrest⟩ := matchLabelAt_spec h2
      exact ⟨hdig, fun hl => has4_of_suffix hsub (h4 hl), hrest.trans hsub⟩

theorem matchDigitsIsYourAt_spec {s cap rest : List Char}
    (h : matchDigitsIsYourAt s = some (cap, rest)) :
    cap.all Char.isDigit = true ∧ (4 ≤ cap.length → has4ConsecutiveDigits s = true) ∧
      rest <:+ s := by
  unfold matchDigitsIsYourAt at h
  by_cases hc : (s.takeWhile Char.isDigit).isEmpty
  · rw [if_pos hc] at h; exact absurd h (by simp)
  · rw [if_neg hc] at h
    by_cases hs1 : ((s.dropWhile Char.isDigit).takeWhile isPySpace).isEmpty
    · rw [if_pos hs1] at h; exact absurd h (by simp)
    · rw [if_neg hs1] at h
      cases his : dropPrefixCI ['i', 's'] ((s.dropWhile Char.isDigit).dropWhile isPySpace) with
      | none => rw [his] at h; exact absurd h (by simp)
      | some s2 =>
        rw [his] at h
        have h2 : (if (s2.takeWhile isPySpace).isEmpty then none
            else
              match dropPrefixCI ['y', 'o', 'u', 'r'] (s2.dropWhile isPySpace) with
              | none => none
              | some s3 => some (s.takeWhile Char.isDigit, s3)) = some (cap, rest) := h
        by_cases hs2 : (s2.takeWhile isPySpace).isEmpty
        · rw [if_pos hs2] at h2; exact absurd h2 (by simp)
        · rw [if_neg hs2] at h2
          cases hyr : dropPrefixCI ['y', 'o', 'u', 'r'] (s2.dropWhile isPySpace) with
          | none => rw [hyr] at h2; exact absurd h2 (by simp)
          | some s3 =>
            rw [hyr] at h2
            injection h2 with h2
            rw [Prod.mk.injEq] at h2
            obtain ⟨rfl, rfl⟩ := h2
            have hdig : (s.takeWhile Char.isDigit).all Char.isDigit = true :=
              List.all_eq_true.mpr fun a ha => List.mem_takeWhile_imp ha
            refine ⟨hdig, ?_, ?_⟩
            · intro hlen
              have hsplit := List.takeWhile_append_dropWhile Char.isDigit s
              rw [← hsplit]
              exact has4_start _ hdig hlen
            · have c1 : s3 <:+ s2.dropWhile isPySpace := dropPrefixCI_suffix _ _ _ hyr
              have c2 : s2.dropWhile isPySpace <:+ s2 := List.dropWhile_suffix isPySpace
              have c3 : s2 <:+ (s.dropWhile Char.isDigit).dropWhile isPySpace :=
                dropPrefixCI_suffix _ _ _ his
              have c4 : (s.dropWhile Char.isDigit).dropWhile isPySpace <:+
                  s.dropWhile Char.isDigit := List.dropWhile_suffix isPySpace
              have c5 : s.dropWhile Char.isDigit <:+ s := List.dropWhile_suffix Char.isDigit
              exact (((c1.trans c2).trans c3).trans c4).trans c5

/-- Every capture of the scan comes from a match of `m` at some suffix of the
text. -/
theorem scanFindAll_mem {m : List Char → Option (List Char × List Char)}
    (hm : ∀ s cap rest, m s = some (cap, rest) → rest <:+ s) :
    ∀ (fuel : Nat) (cs cap : List Char), cap ∈ scanFindAll m fuel cs →
      ∃ s1, s1 <:+ cs ∧ ∃ rest, m s1 = some (cap, rest) := by
  intro fuel
  induction fuel with
  | zero =>
    intro cs cap h
    cases cs <;> simp [scanFindAll] at h
  | succ fuel ih =>
    intro cs cap h
    cases cs with
    | nil => simp [scanFindAll] at h
    | cons c cs =>
      unfold scanFindAll at h
      cases hm1 : m (c :: cs) with
      | none =>
        rw [hm1] at h
        obtain ⟨s1, hsuf, rest, hres⟩ := ih cs cap h
        exact ⟨s1, hsuf.trans (List.suffix_cons c cs), rest, hres⟩
      | some pr =>
        obtain ⟨cap0, rest0⟩ := pr
        rw [hm1] at h
        rcases List.mem_cons.mp h with rfl | hmem
        · exact ⟨c :: cs, List.suffix_rfl, rest0, hm1⟩
        · obtain ⟨s1, hsuf, rest, hres⟩ := ih rest0 cap hmem
          exact ⟨s1, hsuf.trans (hm _ _ _ hm1), rest, hres⟩

/-- A capture of length ≥ 4 from any of the scanners forces four consecutive
digits in the text. -/
theorem findAll_has4 {m : List Char → Option (List Char × List Char)}
    (hspec : ∀ s cap rest, m s = some (cap, rest) →
      cap.all Char.isDigit = true ∧ (4 ≤ cap.length → has4ConsecutiveDigits s = true) ∧
        rest <:+ s) :
    ∀ cs cap, cap ∈ findAll m cs → 4 ≤ cap.length → has4ConsecutiveDigits cs = true := by
  intro cs cap hmem hlen
  obtain ⟨s1, hsuf, rest, hres⟩ :=
    scanFindAll_mem (fun s c r hh => (hspec s c r hh).2.2) cs.length cs cap hmem
  exact has4_of_suffix hsuf ((hspec _ _ _ hres).2.1 hlen)

theorem bareRunMatches_spec {cs cap : List Char} (h : cap ∈ bareRunMatches cs) :
    codeOk cap = true ∧ has4ConsecutiveDigits cs = true := by
  unfold bareRunMatches at h
  obtain ⟨t, ht, hif⟩ := List.mem_filterMap.mp h
  by_cases hc : 4 ≤ t.2.1.length ∧ t.2.1.length ≤ 6 ∧ wordOpt t.1 = false ∧
      wordOpt t.2.2 = false
  · rw [if_pos hc] at hif
    injection hif with hif
    subst hif
    have hdig := digitRunsGo_all_digit cs none [] rfl t ht
    refine ⟨?_, ?_⟩
    · unfold codeOk
      simp [hc.1, hc.2.1, hdig]
    · obtain ⟨l1, l2, heq⟩ := digitRunsGo_infix cs none [] t ht
      have hcs : cs = l1 ++ t.2.1 ++ l2 := by simpa using heq
      rw [hcs]
      exact has4_of_run hdig hc.1
  · rw [if_neg hc] at hif
    exact absurd hif (by simp)

theorem trailingRunMatches_has4 {cs cap : List Char} (h : cap ∈ trailingRunMatches cs) :
    has4ConsecutiveDigits cs = true := by
  unfold trailingRunMatches at h
  obtain ⟨t, ht, hif⟩ := List.mem_filterMap.mp h
  by_cases hc : 4 ≤ t.2.1.length ∧ t.2.2 ≠ none
  · have hdig := digitRunsGo_all_digit cs none [] rfl t ht
    obtain ⟨l1, l2, heq⟩ := digitRunsGo_infix cs none [] t ht
    have hcs : cs = l1 ++ t.2.1 ++ l2 := by simpa using heq
    rw [hcs]
    exact has4_of_run hdig hc.1
  · rw [if_neg hc] at hif
    exact absurd hif (by simp)

/-- If a text has no four consecutive digits, no pattern can produce an
acceptable candidate and extraction yields nothing. -/
theorem extract_none_of_no4 (s : String) (h : has4ConsecutiveDigits s.data = false) :
    extract_verification_code s = none := by
  unfold extract_verification_code
  split
  · rfl
  · have hnone : (patternCandidates s.data).find? codeOk = none := by
      refine List.find?_eq_none.mpr fun x hx => ?_
      have hno4 : ¬ (4 ≤ x.length) := by
        intro hlen
        have h4 : has4ConsecutiveDigits s.data = true := by
          unfold patternCandidates at hx
          rcases List.mem_append.mp hx with hx | hx
          rcases List.mem_append.mp hx with hx | hx
          rcases List.mem_append.mp hx with hx | hx
          rcases List.mem_append.mp hx with hx | hx
          rcases List.mem_append.mp hx with hx | hx
          rcases List.mem_append.mp hx with hx | hx
          rcases List.mem_append.mp hx with hx | hx
          · exact (bareRunMatches_spec hx).2
          · exact findAll_has4 (fun _ _ _ hh => matchLabelAt_spec hh) _ _ hx hlen
          · exact findAll_has4 (fun _ _ _ hh => matchLabelAt_spec hh) _ _ hx hlen
          · exact findAll_has4 (fun _ _ _ hh => matchLabelAt_spec hh) _ _ hx hlen
          · exact findAll_has4 (fun _ _ _ hh => matchLabelAt_spec hh) _ _ hx hlen
          · exact findAll_has4 (fun _ _ _ hh => matchYourCodeAt_spec hh) _ _ hx hlen
          · exact findAll_has4 (fun _ _ _ hh => matchDigitsIsYourAt_spec hh) _ _ hx hlen
          · exact trailingRunMatches_has4 hx
        rw [h4] at h
        exact absurd h (by simp)
      unfold codeOk
      simp [hno4]
    rw [hnone]
    rfl

end SMSValidator

/-- C7 counterexample: the code checks the bare `\b(\d{4,6})\b` pattern BEFORE
the label patterns, so on `"1111 code: 2222"` it extracts `"1111"` while the
claimed label-first policy extracts `"2222"`; moreover `"1234567 "`, whose only
maximal digit run has length 7 (not 4..6), still yields the code `"234567"`
via the trailing `(\d{4,6})\D` pattern. -/
theorem C7_counterexample :
    SMSValidator.extract_verification_code "1111 code: 2222" = some "1111" ∧
    SMSValidator.extract_code_label_first_spec "1111 code: 2222" = some "2222" ∧
    SMSValidator.extract_verification_code "1234567 " = some "234567" ∧
    (SMSValidator.digitRuns "1234567 ".data).all
      (fun t => !(decide (4 ≤ t.2.1.length) && decide (t.2.1.length ≤ 6))) = true :=
  ⟨rfl, rfl, rfl, rfl⟩

/-- C7 (amended): extraction tries the ordered pattern set with first match
winning, checking the bare standalone 4-6 digit run FIRST, before the explicit
label patterns; `"Your Telegram code: 48213"` yields `"48213"`,
`"48213 is your code"` yields `"48213"` (in the validator and in the adapter),
and a text with no run of four consecutive digits yields no code. -/
theorem C7_code_extraction :
    (∀ (s : String) (m : List Char) (rest : List (List Char)),
        SMSValidator.bareRunMatches s.data = m :: rest → s ≠ "" →
        SMSValidator.extract_verification_code s = some m.asString) ∧
    SMSValidator.extract_verification_code "Your Telegram code: 48213" = some "48213" ∧
    SMSValidator.extract_verification_code "48213 is your code" = some "48213" ∧
    SMSValidator.extract_code_from_message "Your Telegram code: 48213" = some "48213" ∧
    SMSValidator.extract_code_from_message "48213 is your code" = some "48213" ∧
    (∀ s : String, SMSValidator.has4ConsecutiveDigits s.data = false →
        SMSValidator.extract_verification_code s = none) := by
  refine ⟨?_, rfl, rfl, rfl, rfl, SMSValidator.extract_none_of_no4⟩
  intro s m rest hb hs
  have hok : SMSValidator.codeOk m = true :=
    (SMSValidator.bareRunMatches_spec (by rw [hb]; exact List.mem_cons_self m rest)).1
  unfold SMSValidator.extract_verification_code
  rw [if_neg hs]
  unfold SMSValidator.patternCandidates
  rw [hb]
  simp only [List.cons_append, List.append_assoc]
  rw [List.find?_cons_of_pos _ hok]
  rfl

/-- Witness for C7 (amended): the bare-run-first conjunct applied at
`"1111 code: 2222"`, and the no-code conjunct applied at a digit-free text. -/
theorem C7_code_extraction_witness :
    SMSValidator.extract_verification_code "1111 code: 2222" =
      some (['1', '1', '1', '1'].asString) ∧
    SMSValidator.extract_verification_code "no code here" = none :=
  ⟨C7_code_extraction.1 "1111 code: 2222" ['1', '1', '1', '1'] _ rfl (by decide),
   C7_code_extraction.2.2.2.2.2 "no code here" (by decide)⟩

/-! ## C10: sanitization and the duplicate relation -/

namespace SMSValidator

theorem noTrailWS_tail {c : Char} {cs : List Char} (h : noTrailWS (c :: cs) = true) :
    noTrailWS cs = true := by
  cases cs with
  | nil => rfl
  | cons c2 cs2 => exact h

theorem noTrailWS_space_ne_nil {c : Char} {cs : List Char} (hsp : isPySpace c = true)
    (h : noTrailWS (c :: cs) = true) : cs ≠ [] := by
  intro hnil
  subst hnil
  unfold noTrailWS at h
  rw [hsp] at h
  exact absurd h (by simp)

theorem tokensGo_ne_nil : ∀ (cs cur : List Char), cur ≠ [] → tokensGo cur cs ≠ [] := by
  intro cs
  induction cs with
  | nil =>
    intro cur hcur
    unfold tokensGo
    simp [List.isEmpty_iff, hcur]
  | cons c cs ih =>
    intro cur hcur
    unfold tokensGo
    by_cases hsp : isPySpace c
    · simp [hsp, List.isEmpty_iff, hcur]
    · simp only [hsp, Bool.false_eq_true, if_false]
      exact ih (c :: cur) (by simp)

theorem tokensGo_nil_ne_nil :
    ∀ cs : List Char, noTrailWS cs = true → cs ≠ [] → tokensGo [] cs ≠ [] := by
  intro cs
  induction cs with
  | nil => intro _ h; exact absurd rfl h
  | cons c cs ih =>
    intro hnt _
    unfold tokensGo
    by_cases hsp : isPySpace c
    · simp only [hsp, if_true, List.isEmpty_nil, if_true]
      exact ih (noTrailWS_tail hnt) (noTrailWS_space_ne_nil hsp hnt)
    · simp only [hsp, Bool.false_eq_true, if_false]
      exact tokensGo_ne_nil cs [c] (by simp)

/-- The core correspondence: on a text with no trailing whitespace, joining the
token list with single spaces is exactly the whitespace-collapsing pass. -/
theorem join_collapse :
    ∀ cs : List Char,
      (∀ cur, cur ≠ [] → noTrailWS cs = true →
        joinTokens (tokensGo cur cs) = cur.reverse ++ collapseGo false cs) ∧
      (noTrailWS cs = true → joinTokens (tokensGo [] cs) = collapseGo true cs) := by
  intro cs
  induction cs with
  | nil =>
    refine ⟨fun cur hcur _ => ?_, fun _ => rfl⟩
    unfold tokensGo
    simp [List.isEmpty_iff, hcur, joinTokens, collapseGo]
  | cons c cs ih =>
    constructor
    · intro cur hcur hnt
      by_cases hsp : isPySpace c
      · have hne := tokensGo_nil_ne_nil cs (noTrailWS_tail hnt) (noTrailWS_space_ne_nil hsp hnt)
        obtain ⟨t, ts, hts⟩ := List.exists_cons_of_ne_nil hne
        unfold tokensGo
        simp only [hsp, if_true, List.isEmpty_iff, hcur, if_neg hcur]
        rw [hts]
        unfold collapseGo
        simp only [hsp, if_true, Bool.false_eq_true, if_false]
        have hj : joinTokens (cur.reverse :: t :: ts) =
            cur.reverse ++ ' ' :: joinTokens (t :: ts) := rfl
        rw [hj, ← hts, ih.2 (noTrailWS_tail hnt)]
      · unfold tokensGo collapseGo
        simp only [hsp, Bool.false_eq_true, if_false]
        rw [ih.1 (c :: cur) (by simp) (noTrailWS_tail hnt)]
        simp
    · intro hnt
      by_cases hsp : isPySpace c
      · unfold tokensGo collapseGo
        simp only [hsp, if_true, List.isEmpty_nil]
        exact ih.2 (noTrailWS_tail hnt)
      · unfold tokensGo collapseGo
        simp only [hsp, Bool.false_eq_true, if_false]
        rw [ih.1 [c] (by simp) (noTrailWS_tail hnt)]
        rfl

/-- The no-leading-whitespace variant, which is the pass `sanitize` actually
runs on the stripped text. -/
theorem join_collapse_false {cs : List Char} (hnt : noTrailWS cs = true)
    (hhd : ∀ c t, cs = c :: t → isPySpace c = false) :
    joinTokens (tokensGo [] cs) = collapseGo false cs := by
  cases cs with
  | nil => rfl
  | cons c t =>
    have hsp := hhd c t rfl
    unfold tokensGo collapseGo
    simp only [hsp, Bool.false_eq_true, if_false]
    rw [(join_collapse t).1 [c] (by simp) (noTrailWS_tail hnt)]
    rfl

theorem tokensGo_cons (cur : List Char) (c : Char) (cs : List Char) :
    tokensGo cur (c :: cs) =
      if isPySpace c then
        (if cur.isEmpty then tokensGo [] cs else cur.reverse :: tokensGo [] cs)
      else tokensGo (c :: cur) cs := rfl

theorem tokensGo_nil (cur : List Char) :
    tokensGo cur [] = if cur.isEmpty then [] else [cur.reverse] := rfl

/-- Leading whitespace does not change the token list. -/
theorem tokensGo_dropWhile (cs : List Char) :
    tokensGo [] (cs.dropWhile isPySpace) = tokensGo [] cs := by
  induction cs with
  | nil => rfl
  | cons c cs ih =>
    by_cases hsp : isPySpace c
    · rw [List.dropWhile_cons_of_pos (by simpa using hsp), ih, tokensGo_cons, if_pos hsp]
      simp
    · rw [List.dropWhile_cons_of_neg (by simpa using hsp)]

/-- Trailing whitespace does not change the token list. -/
theorem tokensGo_append_ws :
    ∀ (cs ws : List Char), ws.all isPySpace = true →
      ∀ cur, tokensGo cur (cs ++ ws) = tokensGo cur cs := by
  have base : ∀ ws : List Char, ws.all isPySpace = true →
      ∀ cur, tokensGo cur ws = tokensGo cur [] := by
    intro ws
    induction ws with
    | nil => intro _ _; rfl
    | cons w ws ih =>
      intro hall cur
      simp only [List.all_cons, Bool.and_eq_true] at hall
      rw [tokensGo_cons, if_pos hall.1, tokensGo_nil]
      by_cases hcur : cur.isEmpty
      · rw [if_pos hcur, if_pos hcur, ih hall.2 []]
        rfl
      · rw [if_neg hcur, if_neg hcur, ih hall.2 []]
        rfl
  intro cs
  induction cs with
  | nil => intro ws hall cur; simpa using base ws hall cur
  | cons c cs ih =>
    intro ws hall cur
    rw [List.cons_append, tokensGo_cons, tokensGo_cons]
    by_cases hsp : isPySpace c
    · rw [if_pos hsp, if_pos hsp]
      by_cases hcur : cur.isEmpty
      · rw [if_pos hcur, if_pos hcur]
        exact ih ws hall []
      · rw [if_neg hcur, if_neg hcur, ih ws hall []]
    · rw [if_neg hsp, if_neg hsp]
      exact ih ws hall (c :: cur)

theorem dropWhile_head_false {p : Char → Bool} :
    ∀ {l : List Char} {a : Char} {as : List Char}, l.dropWhile p = a :: as → p a = false := by
  intro l
  induction l with
  | nil => intro a as h; simp at h
  | cons c cs ih =>
    intro a as h
    by_cases hp : p c
    · rw [List.dropWhile_cons_of_pos (by simpa using hp)] at h
      exact ih h
    · rw [List.dropWhile_cons_of_neg (by simpa using hp)] at h
      obtain ⟨rfl, -⟩ : c = a ∧ cs = as := ⟨by injection h, by injection h⟩
      simpa using hp

theorem noTrailWS_append_singleton :
    ∀ (xs : List Char) (c : Char), noTrailWS (xs ++ [c]) = !(isPySpace c) := by
  intro xs c
  induction xs with
  | nil => rfl
  | cons x xs ih =>
    cases xs with
    | nil => simpa using ih
    | cons y ys => simpa using ih

theorem noTrailWS_reverse_dropWhile (l : List Char) :
    noTrailWS (l.dropWhile isPySpace).reverse = true := by
  cases hdw : l.dropWhile isPySpace with
  | nil => rfl
  | cons a as =>
    rw [List.reverse_cons, noTrailWS_append_singleton]
    simp [dropWhile_head_false hdw]

end SMSValidator

namespace SMSValidator

/-- Strip-then-collapse equals joining the whitespace-separated words of the
original text with single spaces. -/
theorem collapse_strip_eq_join (cs : List Char) :
    collapseGo false (pyStripList cs) = joinTokens (tokensGo [] cs) := by
  have hdecomp : cs.dropWhile isPySpace =
      pyStripList cs ++ ((cs.dropWhile isPySpace).reverse.takeWhile isPySpace).reverse := by
    unfold pyStripList
    conv_lhs =>
      rw [← List.reverse_reverse (cs.dropWhile isPySpace),
        ← List.takeWhile_append_dropWhile isPySpace (cs.dropWhile isPySpace).reverse]
    rw [List.reverse_append]
  have hws : (((cs.dropWhile isPySpace).reverse.takeWhile isPySpace).reverse).all
      isPySpace = true := by
    rw [List.all_reverse]
    exact List.all_eq_true.mpr fun a ha => List.mem_takeWhile_imp ha
  have hnt : noTrailWS (pyStripList cs) = true := noTrailWS_reverse_dropWhile _
  have hhd : ∀ c t, pyStripList cs = c :: t → isPySpace c = false := by
    intro c t hct
    have hb : cs.dropWhile isPySpace =
        c :: (t ++ ((cs.dropWhile isPySpace).reverse.takeWhile isPySpace).reverse) := by
      conv_lhs => rw [hdecomp]
      rw [hct, List.cons_append]
    exact dropWhile_head_false hb
  calc collapseGo false (pyStripList cs)
      = joinTokens (tokensGo [] (pyStripList cs)) := (join_collapse_false hnt hhd).symm
    _ = joinTokens (tokensGo []
          (pyStripList cs ++ ((cs.dropWhile isPySpace).reverse.takeWhile isPySpace).reverse)) :=
        by rw [tokensGo_append_ws _ _ hws]
    _ = joinTokens (tokensGo [] (cs.dropWhile isPySpace)) := by rw [← hdecomp]
    _ = joinTokens (tokensGo [] cs) := by rw [tokensGo_dropWhile]

/-- `sanitize_message_text` in closed form: join the whitespace-separated words
with single spaces, then delete the remaining control characters. -/
theorem sanitize_norm (s : String) :
    sanitize_message_text s =
      ((joinTokens (wsTokens s)).filter fun c => !(isCtlChar c)).asString := by
  unfold sanitize_message_text wsTokens
  split
  · rename_i hs
    subst hs
    rfl
  · rw [collapse_strip_eq_join]

end SMSValidator

/-- C10 counterexample: `"ab"` and `"a\tb"` differ only in one embedded control
character (tab, 0x09, inside 0x00-0x1F), yet the second is NOT classified as a
duplicate of the first — the tab is whitespace, so sanitization converts it to
a space (`"a b"`) instead of removing it. -/
theorem C10_counterexample :
    "a\tb".data.filter (fun c => !(isCtlChar c)) = "ab".data ∧
    SMSValidator.sanitize_message_text "a\tb" = "a b" ∧
    SMSValidator.sanitize_message_text "ab" = "ab" ∧
    SMSValidator.is_message_duplicate
      [{ id := "m1", order_id := "A", text := "ab", code := none }] "a\tb" = false :=
  ⟨rfl, rfl, rfl, rfl⟩

/-- C10 (amended): sanitization collapses every whitespace run (whitespace
control characters included) to a single space, trims the ends, and removes the
remaining non-whitespace control characters afterwards — in closed form it is
word-joining followed by control filtering; therefore every pair of message
texts with the same whitespace-separated words (differing only in the kind or
length of their whitespace runs) is classified as a duplicate. -/
theorem C10_sanitization_duplicates :
    (∀ s : String, SMSValidator.sanitize_message_text s =
        ((SMSValidator.joinTokens (SMSValidator.wsTokens s)).filter
          fun c => !(isCtlChar c)).asString) ∧
    (∀ (msgs : List Models.Msg) (m : Models.Msg) (t2 : String),
        m ∈ msgs → SMSValidator.wsTokens m.text = SMSValidator.wsTokens t2 → t2 ≠ "" →
        SMSValidator.is_message_duplicate msgs t2 = true) := by
  refine ⟨SMSValidator.sanitize_norm, ?_⟩
  intro msgs m t2 hmem htok hne
  have hsan : SMSValidator.sanitize_message_text m.text =
      SMSValidator.sanitize_message_text t2 := by
    rw [SMSValidator.sanitize_norm, SMSValidator.sanitize_norm, htok]
  unfold SMSValidator.is_message_duplicate
  have hmsgs : msgs.isEmpty = false := by
    cases msgs with
    | nil => simp at hmem
    | cons a l => rfl
  rw [if_neg (by simp [hmsgs, hne])]
  exact List.any_eq_true.mpr ⟨m, hmem, by simp [hsan]⟩

/-- Witness for C10 (amended): `"hello  world"` (two spaces) against a stored
`"hello world"` — same words, classified duplicate. -/
theorem C10_sanitization_duplicates_witness :
    SMSValidator.is_message_duplicate
      [{ id := "m1", order_id := "A", text := "hello world", code := none }]
      "hello  world" = true :=
  C10_sanitization_duplicates.2
    [{ id := "m1", order_id := "A", text := "hello world", code := none }]
    { id := "m1", order_id := "A", text := "hello world", code := none }
    "hello  world" (List.mem_singleton.mpr rfl) (by decide) (by decide)

/-! ## C9: notification fan-out -/

theorem removeFirst_cons {α : Type} (p : α → Bool) (x : α) (xs : List α) :
    removeFirst p (x :: xs) = if p x then xs else x :: removeFirst p xs := rfl

theorem removeFirst_of_not_any {α : Type} {p : α → Bool} {l : List α}
    (h : l.any p = false) : removeFirst p l = l := by
  induction l with
  | nil => rfl
  | cons x xs ih =>
    simp only [List.any_cons, Bool.or_eq_false_iff] at h
    unfold removeFirst
    rw [h.1]
    simp only [Bool.false_eq_true, if_false]
    rw [ih h.2]

theorem find_updateFirst_of_disjoint {α : Type} {p q : α → Bool} {f : α → α} {l : List α}
    (hpf : ∀ x, p (f x) = p x) (hdisj : ∀ x, q x = true → p x = false) :
    (updateFirst q f l).find? p = l.find? p := by
  induction l with
  | nil => rfl
  | cons x xs ih =>
    by_cases hq : q x
    · unfold updateFirst
      rw [if_pos hq]
      rw [List.find?_cons_of_neg _ (by simp [hpf x, hdisj x hq]),
        List.find?_cons_of_neg _ (by simp [hdisj x hq])]
    · unfold updateFirst
      rw [if_neg hq]
      cases hp : p x
      · rw [List.find?_cons_of_neg _ (by simp [hp]), List.find?_cons_of_neg _ (by simp [hp])]
        exact ih
      · rw [List.find?_cons_of_pos _ hp, List.find?_cons_of_pos _ hp]

theorem find_removeFirst_of_disjoint {α : Type} {p q : α → Bool} {l : List α}
    (hdisj : ∀ x, q x = true → p x = false) :
    (removeFirst q l).find? p = l.find? p := by
  induction l with
  | nil => rfl
  | cons x xs ih =>
    by_cases hq : q x
    · unfold removeFirst
      rw [if_pos hq, List.find?_cons_of_neg _ (by simp [hdisj x hq])]
    · unfold removeFirst
      rw [if_neg hq]
      cases hp : p x
      · rw [List.find?_cons_of_neg _ (by simp [hp]), List.find?_cons_of_neg _ (by simp [hp])]
        exact ih
      · rw [List.find?_cons_of_pos _ hp, List.find?_cons_of_pos _ hp]

theorem map_updateFirst_eq {α β : Type} {q : α → Bool} {f : α → α} (g : α → β)
    (hg : ∀ x, g (f x) = g x) (l : List α) : (updateFirst q f l).map g = l.map g := by
  induction l with
  | nil => rfl
  | cons x xs ih =>
    unfold updateFirst
    by_cases hq : q x
    · rw [if_pos hq, List.map_cons, List.map_cons, hg]
    · rw [if_neg hq, List.map_cons, List.map_cons, ih]

theorem removeFirst_sublist {α : Type} (p : α → Bool) (l : List α) :
    (removeFirst p l).Sublist l := by
  induction l with
  | nil => exact List.Sublist.refl []
  | cons x xs ih =>
    unfold removeFirst
    by_cases hp : p x
    · rw [if_pos hp]
      exact List.sublist_cons_self x xs
    · rw [if_neg hp]
      exact ih.cons₂ x

namespace SSE

theorem removeList_cons (b : String) (bids : List String) (l : List Sub) :
    removeList (b :: bids) l = removeList bids (removeFirst (fun s => s.sid == b) l) := rfl

theorem removeList_nil_list : ∀ bids : List String, removeList bids ([] : List Sub) = [] := by
  intro bids
  induction bids with
  | nil => rfl
  | cons b bids ih => rw [removeList_cons]; exact ih

theorem removeList_cons_of_not_mem :
    ∀ {bids : List String} {s : Sub} {l : List Sub},
      (∀ b ∈ bids, (s.sid == b) = false) →
      removeList bids (s :: l) = s :: removeList bids l := by
  intro bids
  induction bids with
  | nil => intro s l _; rfl
  | cons b bids ih =>
    intro s l h
    rw [removeList_cons, removeList_cons]
    have hsb : (s.sid == b) = false := h b (List.mem_cons_self b bids)
    have : removeFirst (fun x => x.sid == b) (s :: l) =
        s :: removeFirst (fun x => x.sid == b) l := by
      rw [removeFirst_cons, hsb]
      simp
    rw [this]
    exact ih fun b1 hb1 => h b1 (List.mem_cons_of_mem b hb1)

/-- Removing, one by one, the sids of the broken subscriptions leaves exactly
the non-broken ones (here `sid` identities are distinct, modelling Python
object identity of the queues). -/
theorem removeList_broken :
    ∀ {l : List Sub}, (l.map Sub.sid).Nodup →
      removeList ((l.filter fun s => s.broken).map Sub.sid) l =
        l.filter fun s => !s.broken := by
  intro l
  induction l with
  | nil => intro _; rfl
  | cons s l ih =>
    intro hnd
    rw [List.map_cons, List.nodup_cons] at hnd
    cases hb : s.broken
    · rw [List.filter_cons_of_neg (by simp [hb]), List.filter_cons_of_pos (by simp [hb])]
      rw [removeList_cons_of_not_mem, ih hnd.2]
      intro b hbmem
      have hbl : b ∈ l.map Sub.sid := by
        obtain ⟨x, hx, rfl⟩ := List.mem_map.mp hbmem
        exact List.mem_map_of_mem Sub.sid (List.mem_of_mem_filter hx)
      have : s.sid ≠ b := fun he => hnd.1 (he ▸ hbl)
      simpa using this
    · rw [List.filter_cons_of_pos (by simp [hb]), List.filter_cons_of_neg (by simp [hb])]
      rw [List.map_cons, removeList_cons]
      have hrf : removeFirst (fun x => x.sid == s.sid) (s :: l) = l := by
        rw [removeFirst_cons]
        simp
      rw [hrf]
      exact ih hnd.2

theorem disconnect_eq {m : SSEManager} {uid sid : String} {l : List Sub}
    (h : lookup m uid = some l) :
    disconnect m uid sid =
      (if l.any (fun s => s.sid == sid) then
        (if (removeFirst (fun s => s.sid == sid) l).isEmpty then
          SSEManager.mk (removeFirst (fun p => p.1 == uid) m.connections)
        else
          SSEManager.mk (updateFirst (fun p => p.1 == uid)
            (fun p => (p.1, removeFirst (fun s => s.sid == sid) l)) m.connections))
      else m) := by
  unfold disconnect
  rw [h]

theorem lookup_updateFirst_self {m : SSEManager} {uid : String} {pr : String × List Sub}
    (h : m.connections.find? (fun p => p.1 == uid) = some pr) (newl : List Sub) :
    lookup (SSEManager.mk (updateFirst (fun p => p.1 == uid) (fun p => (p.1, newl))
      m.connections)) uid = some newl := by
  unfold lookup
  rw [find_updateFirst_both h h (by simpa using List.find?_some h)]
  rfl

theorem find_removeFirst_key_none {conns : List (String × List Sub)} {uid : String}
    (hnd : (conns.map Prod.fst).Nodup) :
    (removeFirst (fun p => p.1 == uid) conns).find? (fun p => p.1 == uid) = none := by
  induction conns with
  | nil => rfl
  | cons x xs ih =>
    rw [List.map_cons, List.nodup_cons] at hnd
    by_cases hx : (x.1 == uid) = true
    · have hx1 : x.1 = uid := by simpa using hx
      rw [removeFirst_cons, if_pos hx]
      refine List.find?_eq_none.mpr fun y hy => ?_
      have hy1 : y.1 ∈ xs.map Prod.fst := List.mem_map_of_mem Prod.fst hy
      have : y.1 ≠ uid := fun he => hnd.1 (by rw [hx1, ← he]; exact hy1)
      simpa using this
    · rw [removeFirst_cons, if_neg hx, List.find?_cons_of_neg _ (by simpa using hx)]
      exact ih hnd.2

theorem fold_disconnect_none :
    ∀ (bids : List String) (m : SSEManager) (uid : String), lookup m uid = none →
      bids.foldl (fun acc sid => disconnect acc uid sid) m = m := by
  intro bids
  induction bids with
  | nil => intro m uid _; rfl
  | cons b bids ih =>
    intro m uid hm
    rw [List.foldl_cons]
    have hd : disconnect m uid b = m := by
      unfold disconnect
      rw [hm]
    rw [hd]
    exact ih m uid hm

end SSE

namespace SSE

/-- Effect of folding `disconnect` over a list of sids on the user's entry:
exactly the one-by-one removals, with the entry deleted iff a removal emptied
it; other users' entries are untouched. -/
theorem fold_disconnect_spec :
    ∀ (bids : List String) (m : SSEManager) (uid : String) (l : List Sub),
      (m.connections.map Prod.fst).Nodup →
      lookup m uid = some l →
      lookup (bids.foldl (fun acc sid => disconnect acc uid sid) m) uid =
          (if removeList bids l = [] ∧ l ≠ [] then none else some (removeList bids l)) ∧
      ∀ u, u ≠ uid →
        lookup (bids.foldl (fun acc sid => disconnect acc uid sid) m) u = lookup m u := by
  intro bids
  induction bids with
  | nil =>
    intro m uid l hnd hlk
    refine ⟨?_, fun u hu => rfl⟩
    show lookup m uid = if removeList [] l = [] ∧ l ≠ [] then none else some (removeList [] l)
    split
    · rename_i hcond
      exact absurd hcond.1 hcond.2
    · exact hlk
  | cons b bids ih =>
    intro m uid l hnd hlk
    rw [List.foldl_cons, disconnect_eq hlk]
    by_cases hany : l.any (fun s => s.sid == b)
    · rw [if_pos hany]
      have hlne : l ≠ [] := by
        intro he
        subst he
        simp at hany
      by_cases hemp : (removeFirst (fun s => s.sid == b) l).isEmpty
      · rw [if_pos hemp]
        have hl1 : removeFirst (fun s => s.sid == b) l = [] := by
          simpa [List.isEmpty_iff] using hemp
        have hlkn : lookup (SSEManager.mk (removeFirst (fun p => p.1 == uid)
            m.connections)) uid = none := by
          unfold lookup
          rw [find_removeFirst_key_none hnd]
          rfl
        rw [fold_disconnect_none bids _ uid hlkn]
        constructor
        · rw [hlkn, removeList_cons, hl1, removeList_nil_list]
          rw [if_pos ⟨rfl, hlne⟩]
        · intro u hu
          unfold lookup
          rw [find_removeFirst_of_disjoint]
          intro x hx
          have hx1 : x.1 = uid := by simpa using hx
          simp only [hx1, beq_eq_false_iff_ne]
          exact fun he => hu he.symm
      · rw [if_neg hemp]
        have hl1ne : removeFirst (fun s => s.sid == b) l ≠ [] := by
          simpa [List.isEmpty_iff] using hemp
        obtain ⟨pr, hpr⟩ : ∃ pr, m.connections.find? (fun p => p.1 == uid) = some pr := by
          unfold lookup at hlk
          cases hf : m.connections.find? (fun p => p.1 == uid) with
          | none => rw [hf] at hlk; exact absurd hlk (by simp)
          | some pr => exact ⟨pr, rfl⟩
        have hlk1 := lookup_updateFirst_self hpr (removeFirst (fun s => s.sid == b) l)
        have hnd1 : ((updateFirst (fun p => p.1 == uid)
            (fun p => (p.1, removeFirst (fun s => s.sid == b) l))
            m.connections).map Prod.fst).Nodup := by
          have hmap : (updateFirst (fun p => p.1 == uid)
              (fun p => ((p.1 : String), removeFirst (fun s => s.sid == b) l))
              m.connections).map Prod.fst = m.connections.map Prod.fst := by
            refine map_updateFirst_eq Prod.fst (fun x => ?_) m.connections
            rfl
          rw [hmap]
          exact hnd
        obtain ⟨h1, h2⟩ := ih _ uid (removeFirst (fun s => s.sid == b) l) hnd1 hlk1
        constructor
        · rw [h1, removeList_cons]
          have hcond : (removeList bids (removeFirst (fun s => s.sid == b) l) = [] ∧
              removeFirst (fun s => s.sid == b) l ≠ []) ↔
              (removeList bids (removeFirst (fun s => s.sid == b) l) = [] ∧ l ≠ []) := by
            constructor
            · rintro ⟨h, -⟩; exact ⟨h, hlne⟩
            · rintro ⟨h, -⟩; exact ⟨h, hl1ne⟩
          split
          · rename_i hc
            rw [if_pos (hcond.mp hc)]
          · rename_i hc
            rw [if_neg (fun hcc => hc (hcond.mpr hcc))]
        · intro u hu
          rw [h2 u hu]
          unfold lookup
          have hfu : (updateFirst (fun p => ((p.1 : String) == uid))
              (fun p => ((p.1 : String), removeFirst (fun s => s.sid == b) l))
              m.connections).find? (fun p => p.1 == u) =
              m.connections.find? (fun p => p.1 == u) := by
            refine find_updateFirst_of_disjoint (fun x => ?_) ?_
            · rfl
            · intro x hx
              have hx1 : x.1 = uid := by simpa using hx
              simp only [hx1, beq_eq_false_iff_ne]
              exact fun he => hu he.symm
          rw [hfu]
    · rw [if_neg hany]
      have hrl : removeFirst (fun s => s.sid == b) l = l :=
        removeFirst_of_not_any (by simpa using hany)
      obtain ⟨h1, h2⟩ := ih m uid l hnd hlk
      rw [removeList_cons, hrl]
      exact ⟨h1, h2⟩

end SSE

namespace SSE

theorem send_to_user_eq {m : SSEManager} {uid etype payload : String} {l : List Sub}
    (h : lookup m uid = some l) :
    send_to_user m uid etype payload =
      ((l.filter fun s => s.broken).map Sub.sid).foldl
        (fun acc sid => disconnect acc uid sid)
        (SSEManager.mk (updateFirst (fun p => p.1 == uid)
          (fun p => (p.1, l.map fun s => if s.broken then s
                          else putMsg (format_sse_message etype payload) s))
          m.connections)) := by
  unfold send_to_user
  rw [h]

theorem delivered_filter_broken_sids (msg : String) (l : List Sub) :
    (((l.map fun s => if s.broken then s else putMsg msg s).filter
        fun s => s.broken).map Sub.sid) =
      ((l.filter fun s => s.broken).map Sub.sid) := by
  induction l with
  | nil => rfl
  | cons s l ih =>
    cases hb : s.broken
    · rw [List.map_cons, if_neg (by simp [hb])]
      rw [List.filter_cons_of_neg (by simp [putMsg, hb]),
        List.filter_cons_of_neg (by simp [hb])]
      exact ih
    · rw [List.map_cons, if_pos (by simp [hb])]
      rw [List.filter_cons_of_pos (by simp [hb]), List.filter_cons_of_pos (by simp [hb])]
      rw [List.map_cons, List.map_cons, ih]

theorem delivered_sids (msg : String) (l : List Sub) :
    ((l.map fun s => if s.broken then s else putMsg msg s).map Sub.sid) =
      l.map Sub.sid := by
  induction l with
  | nil => rfl
  | cons s l ih =>
    rw [List.map_cons, List.map_cons, List.map_cons, ih]
    cases hb : s.broken
    · rw [if_neg (by simp [hb])]
      rfl
    · rw [if_pos (by simp [hb])]

theorem delivered_filter_live (msg : String) (l : List Sub) :
    ((l.map fun s => if s.broken then s else putMsg msg s).filter
        fun s => !s.broken) = liveDelivered msg l := by
  induction l with
  | nil => rfl
  | cons s l ih =>
    unfold liveDelivered
    cases hb : s.broken
    · rw [List.map_cons, if_neg (by simp [hb])]
      rw [List.filter_cons_of_pos (by simp [putMsg, hb]), List.filterMap_cons]
      simp only [hb, Bool.false_eq_true, if_false]
      rw [ih]
      rfl
    · rw [List.map_cons, if_pos (by simp [hb])]
      rw [List.filter_cons_of_neg (by simp [hb]), List.filterMap_cons]
      simp only [hb, if_true]
      rw [ih]
      rfl

theorem delivered_ne_nil (msg : String) {l : List Sub} (h : l ≠ []) :
    (l.map fun s => if s.broken then s else putMsg msg s) ≠ [] := by
  simpa using h

end SSE

/-- C9: publishing to a user delivers the formatted event exactly once to every
live subscription registered for that user (the broken ones are pruned, the
entry being deleted only when nothing live remains), other users' entries are
untouched, and publishing to a user with no registered entry leaves the
registry unchanged. -/
theorem C9_notification_fanout :
    (∀ (m : SSE.SSEManager) (uid etype payload : String) (l : List SSE.Sub),
        (m.connections.map Prod.fst).Nodup →
        (l.map SSE.Sub.sid).Nodup →
        SSE.lookup m uid = some l →
        (SSE.lookup (SSE.send_to_user m uid etype payload) uid =
          (if SSE.liveDelivered (SSE.format_sse_message etype payload) l = [] ∧ l ≠ []
           then none
           else some (SSE.liveDelivered (SSE.format_sse_message etype payload) l))) ∧
        (∀ u, u ≠ uid →
          SSE.lookup (SSE.send_to_user m uid etype payload) u = SSE.lookup m u)) ∧
    (∀ (m : SSE.SSEManager) (uid etype payload : String),
        SSE.lookup m uid = none → SSE.send_to_user m uid etype payload = m) := by
  constructor
  · intro m uid etype payload l hnd hnds hlk
    rw [SSE.send_to_user_eq hlk]
    obtain ⟨pr, hpr⟩ : ∃ pr, m.connections.find? (fun p => p.1 == uid) = some pr := by
      unfold SSE.lookup at hlk
      cases hf : m.connections.find? (fun p => p.1 == uid) with
      | none => rw [hf] at hlk; exact absurd hlk (by simp)
      | some pr => exact ⟨pr, rfl⟩
    have hlk1 := SSE.lookup_updateFirst_self hpr
      (l.map fun s => if s.broken then s
        else SSE.putMsg (SSE.format_sse_message etype payload) s)
    have hnd1 : ((updateFirst (fun p => ((p.1 : String) == uid))
        (fun p => ((p.1 : String), l.map fun s => if s.broken then s
            else SSE.putMsg (SSE.format_sse_message etype payload) s))
        m.connections).map Prod.fst).Nodup := by
      have hmap : (updateFirst (fun p => ((p.1 : String) == uid))
          (fun p => ((p.1 : String), l.map fun s => if s.broken then s
              else SSE.putMsg (SSE.format_sse_message etype payload) s))
          m.connections).map Prod.fst = m.connections.map Prod.fst := by
        refine map_updateFirst_eq Prod.fst (fun x => ?_) m.connections
        rfl
      rw [hmap]
      exact hnd
    obtain ⟨h1, h2⟩ := SSE.fold_disconnect_spec
      ((l.filter fun s => s.broken).map SSE.Sub.sid) _ uid
      (l.map fun s => if s.broken then s
        else SSE.putMsg (SSE.format_sse_message etype payload) s) hnd1 hlk1
    constructor
    · rw [h1]
      have hbids := (SSE.delivered_filter_broken_sids
        (SSE.format_sse_message etype payload) l).symm
      rw [hbids, SSE.removeList_broken (by
        rw [SSE.delivered_sids]
        exact hnds), SSE.delivered_filter_live]
      by_cases hln : l = []
      · subst hln
        simp
      · have hdn : (l.map fun s => if s.broken then s
            else SSE.putMsg (SSE.format_sse_message etype payload) s) ≠ [] :=
          SSE.delivered_ne_nil _ hln
        by_cases hlive : SSE.liveDelivered (SSE.format_sse_message etype payload) l = []
        · rw [if_pos ⟨hlive, hdn⟩, if_pos ⟨hlive, hln⟩]
        · rw [if_neg (fun hc => hlive hc.1), if_neg (fun hc => hlive hc.1)]
    · intro u hu
      rw [h2 u hu]
      unfold SSE.lookup
      have hfu : (updateFirst (fun p => ((p.1 : String) == uid))
          (fun p => ((p.1 : String), l.map fun s => if s.broken then s
              else SSE.putMsg (SSE.format_sse_message etype payload) s))
          m.connections).find? (fun p => p.1 == u) =
          m.connections.find? (fun p => p.1 == u) := by
        refine find_updateFirst_of_disjoint (fun x => ?_) ?_
        · rfl
        · intro x hx
          have hx1 : x.1 = uid := by simpa using hx
          simp only [hx1, beq_eq_false_iff_ne]
          exact fun he => hu he.symm
      rw [hfu]
  · intro m uid etype payload h
    unfold SSE.send_to_user
    rw [h]

/-- Witness for C9: at the concrete registry with two live and one broken
subscription for "u1", both live queues receive exactly one copy of the
formatted event, the broken one is pruned, and "u2" is untouched. -/
theorem C9_notification_fanout_witness :
    SSE.lookup (SSE.send_to_user Fixtures.mgr3 "u1" "order_status_updated" "PAYLOAD") "u1" =
      some [{ sid := "q1", broken := false,
              buf := ["event: order_status_updated\ndata: PAYLOAD\n\n"] },
            { sid := "q3", broken := false,
              buf := ["event: order_status_updated\ndata: PAYLOAD\n\n"] }] ∧
    SSE.lookup (SSE.send_to_user Fixtures.mgr3 "u1" "order_status_updated" "PAYLOAD") "u2" =
      SSE.lookup Fixtures.mgr3 "u2" := by
  have h := C9_notification_fanout.1 Fixtures.mgr3 "u1" "order_status_updated" "PAYLOAD"
    [{ sid := "q1", broken := false, buf := [] },
     { sid := "q2", broken := true, buf := [] },
     { sid := "q3", broken := false, buf := [] }] (by decide) (by decide) rfl
  refine ⟨?_, h.2 "u2" (by decide)⟩
  rw [h.1]
  rfl
